import Mathlib

/-!
Verification of the ExplicitlyDesktop real-time profanity-filter pipeline.

This file gives a shallow embedding, in Lean 4, of the parts of the C++
source that the specification claims speak about:

* `LockFreeQueue.h`   : the SPSC ring queue (`push`, `isFull`);
* `AudioEngine.cpp`   : the per-sample delay-line loop of
  `audioDeviceIOCallbackWithContext`, the buffer-underrun flag update, the
  accumulation of input samples into the fixed chunk buffer, and the in-place
  mute / reverse rewrites of `processTranscription`;
* `LyricsAlignment.cpp` : `normalizeText`, `splitIntoWords`, `soundexEncode`,
  `calculateSimilarity`, `isNonLyricalContent`, `findBestStartPosition`,
  `mapTimestamps`, `alignChunk`, `predictNextWords`, `setLyrics`, `reset`;
* `ProfanityFilter.h` : `isProfane`;
* `TimestampRefiner.cpp` : `calculateEnergy`, `calculateZeroCrossing`,
  `findBestBoundary`, `searchForSpeech`, `refineWordTimestamp`.

C++ `float` / `double` values are modelled as rationals (`ℚ`), machine `int`
values as `ℤ` (or `ℕ` where the source value is provably non-negative), and
`std::string` as Lean `String` / `List Char` restricted to ASCII, which is the
alphabet all the relevant code paths operate on.  The C library call
`::tolower` and the classifiers `std::isalnum` / `std::isspace` are modelled
on ASCII, matching the default C locale.  A C cast `(int)` of a non-negative
floating value is truncation, modelled by `ratTruncInt`.  The square root used
by the energy computation of `TimestampRefiner` is kept as an explicit
function parameter `sqrtFn`; theorems either hold for every `sqrtFn` or
instantiate it with a function that agrees with the real square root on every
value reached by the concrete evaluation.
-/

/-- Truncation toward zero of a rational, the semantics of a C `(int)` cast of
a floating-point value. -/
def ratTruncInt (q : ℚ) : ℤ :=
  if 0 ≤ q then ⌊q⌋ else -⌊-q⌋

/-- ASCII lower-casing, the behaviour of `::tolower` in the default C locale
on the byte values the pipeline feeds it. -/
def asciiToLower (c : Char) : Char :=
  if 'A' ≤ c ∧ c ≤ 'Z' then Char.ofNat (c.toNat + 32) else c

/-- ASCII `std::isalnum`. -/
def isAlnumAscii (c : Char) : Bool :=
  ('a' ≤ c && c ≤ 'z') || ('A' ≤ c && c ≤ 'Z') || ('0' ≤ c && c ≤ '9')

/-- ASCII `std::isspace`. -/
def isSpaceAscii (c : Char) : Bool :=
  c = ' ' || c = '\t' || c = '\n' || c = '\x0b' || c = '\x0c' || c = '\r'

/-- Split a character list into maximal whitespace-free words, the behaviour
of reading a `std::istringstream` word by word with `>>`. -/
def splitWs : List Char → List (List Char)
  | [] => []
  | c :: cs =>
    if isSpaceAscii c then splitWs cs
    else
      match splitWs cs with
      | [] => [[c]]
      | w :: ws =>
        -- glue `c` onto the first word unless a space separated them
        match cs with
        | [] => [[c]]
        | c2 :: _ => if isSpaceAscii c2 then [c] :: w :: ws else (c :: w) :: ws

/-- Join a list of words with single spaces. -/
def joinSpace : List (List Char) → List Char
  | [] => []
  | [w] => w
  | w :: ws => w ++ ' ' :: joinSpace ws

namespace LyricsAlignment

/-- `LyricsAlignment::normalizeText` (LyricsAlignment.cpp, lines 21-47):
lower-case the text, erase every character that is neither alphanumeric nor
whitespace, then collapse whitespace runs by splitting into words and
re-joining with single spaces. -/
def normalizeText (text : List Char) : List Char :=
  let lowered := text.map asciiToLower
  let filtered := lowered.filter (fun c => isAlnumAscii c || isSpaceAscii c)
  joinSpace (splitWs filtered)

/-- `LyricsAlignment::splitIntoWords`: normalize, then split on whitespace. -/
def splitIntoWords (text : List Char) : List (List Char) :=
  splitWs (normalizeText text)

/-- Whether `pat` occurs at the very beginning of `text`. -/
def matchesAt : List Char → List Char → Bool
  | [], _ => true
  | _ :: _, [] => false
  | p :: ps, t :: ts => p = t && matchesAt ps ts

/-- `std::string::find(pat) != npos`: whether `pat` occurs anywhere in
`text`. -/
def containsSub (text pat : List Char) : Bool :=
  match text with
  | [] => pat.isEmpty
  | _ :: rest => matchesAt pat text || containsSub rest pat

/-- Consonant-class digit of the simplified soundex of
`LyricsAlignment::soundexEncode`. -/
def soundexDigit (c : Char) : Char :=
  if c = 'b' ∨ c = 'f' ∨ c = 'p' ∨ c = 'v' then '1'
  else if c = 'c' ∨ c = 'g' ∨ c = 'j' ∨ c = 'k' ∨ c = 'q' ∨ c = 's' ∨ c = 'x' ∨ c = 'z' then '2'
  else if c = 'd' ∨ c = 't' then '3'
  else if c = 'l' then '4'
  else if c = 'm' ∨ c = 'n' then '5'
  else if c = 'r' then '6'
  else '0'

/-- ASCII upper-casing (`std::toupper` in the default C locale). -/
def asciiToUpper (c : Char) : Char :=
  if 'a' ≤ c ∧ c ≤ 'z' then Char.ofNat (c.toNat - 32) else c

/-- `LyricsAlignment::soundexEncode` (LyricsAlignment.cpp, lines 355-390):
keep the upper-cased first letter of the normalized word, then append the
consonant-class digit of each further letter, skipping vowels (digit `'0'`)
and immediate repeats, while fewer than four characters have been produced;
finally pad with `'0'` to length four. -/
def soundexEncode (word : List Char) : List Char :=
  if word = [] then []
  else
    match normalizeText word with
    | [] => []
    | c0 :: rest =>
      let code := rest.foldl
        (fun code c =>
          if code.length < 4 then
            let digit := soundexDigit c
            if digit ≠ '0' ∧ (code = [] ∨ code.getLast? ≠ some digit) then
              code ++ [digit]
            else code
          else code)
        [asciiToUpper c0]
      (code ++ List.replicate (4 - code.length) '0').take 4

/-- One inner step of the character-level edit-distance matrix fill of
`LyricsAlignment::calculateSimilarity`: given the current character `c1` of
the first string (row `i`), the remaining characters of the second string,
the remaining entries of row `i - 1` (headed by `dp[i-1][j]`), the diagonal
entry `dp[i-1][j-1]` and the entry to the left `dp[i][j-1]`, produce the
entries `dp[i][j], dp[i][j+1], ...` of row `i`. -/
def levRowStep (c1 : Char) : List Char → List ℕ → ℕ → ℕ → List ℕ
  | c2 :: cs, up :: rest, diag, left =>
    let v := if c1 = c2 then diag else 1 + min (min up left) diag
    v :: levRowStep c1 cs rest up v
  | _, _, _, _ => []

/-- Row `i` of the edit-distance matrix from row `i - 1`; the first entry is
the first-column initialisation `dp[i][0] = i`. -/
def levRow (c1 : Char) (s2 : List Char) (prev : List ℕ) (i : ℕ) : List ℕ :=
  match prev with
  | [] => []
  | d0 :: rest => i :: levRowStep c1 s2 rest d0 i

/-- The character-level Levenshtein distance `dp[m][n]` of
`LyricsAlignment::calculateSimilarity` (LyricsAlignment.cpp, lines 431-451),
computed by filling the dynamic-programming matrix row by row exactly as the
nested loops of the source do. -/
def editDistance (s1 s2 : List Char) : ℕ :=
  let row0 := List.range (s2.length + 1)
  let final := s1.foldl (fun acc c1 => (levRow c1 s2 acc.1 (acc.2 + 1), acc.2 + 1)) (row0, 0)
  final.1.getLastD 0

/-- `LyricsAlignment::calculateSimilarity` (LyricsAlignment.cpp, lines
422-455): normalize both texts; empty-vs-empty scores 1, empty-vs-non-empty
scores 0, equal strings score 1, otherwise `1 - distance / max(m, n)`. -/
def calculateSimilarity (text1 text2 : List Char) : ℚ :=
  let s1 := normalizeText text1
  let s2 := normalizeText text2
  if s1 = [] ∧ s2 = [] then 1
  else if s1 = [] ∨ s2 = [] then 0
  else if s1 = s2 then 1
  else
    let m := s1.length
    let n := s2.length
    let distance := editDistance s1 s2
    1 - (distance : ℚ) / (max m n : ℚ)

/-- `WordSegment` (LyricsAlignment.h).  The source field `end` is called
`stop` here because `end` is a reserved word in Lean. -/
structure WordSegment where
  word : List Char
  start : ℚ
  stop : ℚ
  confidence : ℚ
deriving DecidableEq, Repr

instance : Inhabited WordSegment := ⟨⟨[], 0, 0, 0⟩⟩

/-- `LyricsWord` (LyricsAlignment.h). -/
structure LyricsWord where
  index : ℤ
  word : List Char
  soundex : List Char
  isOptional : Bool
deriving DecidableEq, Repr

instance : Inhabited LyricsWord := ⟨⟨0, [], [], false⟩⟩

/-- The forced-alignment state of `LyricsAlignment` (LyricsAlignment.h,
lines 206-210). -/
structure AlignerState where
  preprocessedLyrics : List LyricsWord
  currentPosition : ℤ
  locked : Bool
  consecutiveMatches : ℤ
  initialized : Bool
deriving DecidableEq, Repr

/-- `LyricsAlignment::isNonLyricalContent` (LyricsAlignment.cpp, lines
393-419). -/
def isNonLyricalContent (words : List WordSegment) : Bool :=
  if words = [] then true
  else
    let combined0 := words.foldl (fun acc w => acc ++ normalizeText w.word ++ [' ']) []
    let combined := normalizeText combined0
    if combined = [] ∨ combined.length < 2 then true
    else if containsSub combined "music".toList ∨ containsSub combined "applause".toList ∨
        containsSub combined "laughter".toList ∨ containsSub combined "instrumental".toList then
      true
    else false

/-- The integer interval `[lo, hi)` as a list, the index set of a C loop
`for (int pos = lo; pos < hi; ++pos)`. -/
def intRange (lo hi : ℤ) : List ℤ :=
  (List.range (hi - lo).toNat).map (fun k => lo + (k : ℤ))

/-- The score of one candidate start position of
`LyricsAlignment::findBestStartPosition` (LyricsAlignment.cpp, lines
652-668): join and normalize the transcribed words, build the normalized
lyrics window of the same word count starting at `pos`, and compare by
`calculateSimilarity`.  (The source hoists the normalized transcription out
of the loop; recomputing it per position yields the same value.) -/
def windowScoreOf (lyrics : List LyricsWord) (transcribedWords : List WordSegment)
    (pos : ℤ) : ℚ :=
  let size : ℤ := lyrics.length
  let transcribedText :=
    normalizeText (transcribedWords.foldl (fun acc w => acc ++ w.word ++ [' ']) [])
  let endPos : ℤ := min (pos + (transcribedWords.length : ℤ)) size
  let lyricsText := normalizeText ((intRange pos endPos).foldl
    (fun acc i => acc ++ (lyrics.getD i.toNat default).word ++ [' ']) [])
  calculateSimilarity transcribedText lyricsText

/-- `LyricsAlignment::findBestStartPosition` (LyricsAlignment.cpp, lines
640-679): scan every start position in `[searchStart, min searchEnd size)`,
score the same-length lyrics window by `calculateSimilarity`, and keep the
first position achieving the strictly best score.  Returns
`(bestPosition, bestScore)`, initialised to `(-1, 0)`. -/
def findBestStartPosition (lyrics : List LyricsWord) (transcribedWords : List WordSegment)
    (searchStart searchEnd : ℤ) : ℤ × ℚ :=
  let size : ℤ := lyrics.length
  (intRange searchStart (min searchEnd size)).foldl
    (fun best pos =>
      let score := windowScoreOf lyrics transcribedWords pos
      if best.2 < score then (pos, score) else best)
    (-1, 0)

/-- `LyricsAlignment::mapTimestamps` (LyricsAlignment.cpp, lines 682-725):
distribute the chunk time span uniformly over `lyricsCount` lyrics words
starting at `lyricsStart`, each at `0.95` times the mean confidence of the
transcribed words.  The source loop breaks at the first out-of-range lyrics
index; as the index grows monotonically, dropping out-of-range indices is the
same thing. -/
def mapTimestamps (lyrics : List LyricsWord) (lyricsStart lyricsCount : ℤ)
    (transcribed : List WordSegment) : List WordSegment :=
  if transcribed = [] ∨ lyricsCount = 0 then []
  else
    let size : ℤ := lyrics.length
    let startTime := (transcribed.headD default).start
    let endTime := (transcribed.getLastD default).stop
    let totalDuration := endTime - startTime
    let timePerWord := totalDuration / (lyricsCount : ℚ)
    let avgConf := (transcribed.foldl (fun a w => a + w.confidence) 0) / (transcribed.length : ℚ)
    (List.range lyricsCount.toNat).filterMap (fun (i : ℕ) =>
      if lyricsStart + (i : ℤ) < size then
        let wordStart := startTime + (i : ℚ) * timePerWord
        some ⟨(lyrics.getD (lyricsStart + (i : ℤ)).toNat default).word,
          wordStart, wordStart + timePerWord, avgConf * (19/20)⟩
      else none)

/-- The time-based position estimate of `LyricsAlignment::alignChunk`:
`(int)(absoluteTime * 3.5)` when a positive absolute time is known, otherwise
the sequential cursor (LyricsAlignment.cpp, lines 754-761). -/
def estimatedPositionOf (st : AlignerState) (absoluteTime : ℚ) : ℤ :=
  if 0 < absoluteTime then ratTruncInt (absoluteTime * (7/2)) else st.currentPosition

/-- The large-jump unlock of `alignChunk` (LyricsAlignment.cpp, lines
762-771): when a positive absolute time places the estimate more than 20
words away from the cursor while locked, drop the lock and the consecutive
match count; otherwise carry them over.  Returns `(locked, consecutiveMatches)`
as seen by the rest of the call. -/
def jumpAdjusted (st : AlignerState) (absoluteTime : ℚ) : Bool × ℤ :=
  if 0 < absoluteTime ∧ 20 < |estimatedPositionOf st absoluteTime - st.currentPosition| ∧
      st.locked = true then
    (false, 0)
  else (st.locked, st.consecutiveMatches)

/-- The search range of `alignChunk` (LyricsAlignment.cpp, lines 774-791):
unlocked (or cursor at 0) searches `±30` words around the time estimate;
locked searches the next 10 words from the cursor. -/
def searchRangeOf (st : AlignerState) (absoluteTime : ℚ) : ℤ × ℤ :=
  let size : ℤ := st.preprocessedLyrics.length
  let estimatedPosition := estimatedPositionOf st absoluteTime
  if ¬(jumpAdjusted st absoluteTime).1 = true ∨ st.currentPosition = 0 then
    (max 0 (estimatedPosition - 30), min size (estimatedPosition + 30))
  else
    (st.currentPosition, min size (st.currentPosition + 10))

/-- `LyricsAlignment::alignChunk` (LyricsAlignment.cpp, lines 728-864),
returning the updated aligner state together with the emitted word segments.
The constants are `WORDS_PER_SECOND = 3.5`, `LOCK_THRESHOLD = 0.80`,
`TEXT_MATCH_THRESHOLD = 0.20`, `LOCK_REQUIRED_MATCHES = 2`. -/
def alignChunk (st : AlignerState) (transcribedWords : List WordSegment) (absoluteTime : ℚ) :
    AlignerState × List WordSegment :=
  if ¬st.initialized ∨ st.preprocessedLyrics = [] then (st, transcribedWords)
  else if transcribedWords = [] then (st, transcribedWords)
  else if isNonLyricalContent transcribedWords then (st, transcribedWords)
  else
    let size : ℤ := st.preprocessedLyrics.length
    let locked1 := (jumpAdjusted st absoluteTime).1
    let consec1 : ℤ := (jumpAdjusted st absoluteTime).2
    let sRange := searchRangeOf st absoluteTime
    let mr := findBestStartPosition st.preprocessedLyrics transcribedWords sRange.1 sRange.2
    let matchPosition := mr.1
    let matchScore := mr.2
    if matchPosition < 0 then
      ({ st with locked := false, consecutiveMatches := 0 }, transcribedWords)
    else if (4/5 : ℚ) ≤ matchScore then
      let consec2 := consec1 + 1
      let locked2 := if 2 ≤ consec2 then true else locked1
      let wordCount : ℤ := min (transcribedWords.length : ℤ) (size - matchPosition)
      let aligned := mapTimestamps st.preprocessedLyrics matchPosition wordCount transcribedWords
      ({ st with locked := locked2, consecutiveMatches := consec2,
                 currentPosition := matchPosition + wordCount }, aligned)
    else if (1/5 : ℚ) ≤ matchScore then
      let wordCount : ℤ := min (transcribedWords.length : ℤ) (size - matchPosition)
      let aligned := mapTimestamps st.preprocessedLyrics matchPosition wordCount transcribedWords
      ({ st with locked := false, consecutiveMatches := 0,
                 currentPosition := matchPosition + wordCount }, aligned)
    else
      ({ st with locked := false, consecutiveMatches := 0 }, transcribedWords)

/-- `LyricsAlignment::isReady`. -/
def isReady (st : AlignerState) : Bool :=
  st.initialized && !st.preprocessedLyrics.isEmpty

/-- The word count `numWords` of `predictNextWords`:
`min((int)(duration * ESTIMATED_WORDS_PER_SECOND), size - currentPosition)`
with `ESTIMATED_WORDS_PER_SECOND = 3.5` (LyricsAlignment.cpp, lines
873-878). -/
def predictNumWords (st : AlignerState) (duration : ℚ) : ℤ :=
  min (ratTruncInt (duration * (7/2))) ((st.preprocessedLyrics.length : ℤ) - st.currentPosition)

/-- `LyricsAlignment::predictNextWords` (LyricsAlignment.cpp, lines 866-905):
when ready and the cursor is before the end of the lyrics, emit
`min((int)(duration * 3.5), remaining)` lyrics words starting at the cursor,
uniformly spread over `duration` at confidence `0.5`, and advance the cursor
by that count. -/
def predictNextWords (st : AlignerState) (duration : ℚ) : AlignerState × List WordSegment :=
  if ¬isReady st = true ∨ (st.preprocessedLyrics.length : ℤ) ≤ st.currentPosition then (st, [])
  else
    let numWords : ℤ := predictNumWords st duration
    let wordDuration : ℚ := duration / (numWords : ℚ)
    let predicted := (List.range numWords.toNat).map (fun (i : ℕ) =>
      let startTime := (i : ℚ) * wordDuration
      (⟨(st.preprocessedLyrics.getD (st.currentPosition + (i : ℤ)).toNat default).word,
        startTime, startTime + wordDuration, (1/2 : ℚ)⟩ : WordSegment))
    ({ st with currentPosition := st.currentPosition + numWords }, predicted)

/-- `LyricsAlignment::setLyrics` (LyricsAlignment.cpp, lines 457-481):
tokenize the lyrics, compute a soundex code per word, reset the cursor and
the lock, and mark the aligner initialized. -/
def setLyrics (lyrics : List Char) : AlignerState :=
  let words := splitIntoWords lyrics
  { preprocessedLyrics := words.enum.map (fun p => ⟨(p.1 : ℤ), p.2, soundexEncode p.2, false⟩),
    currentPosition := 0, locked := false, consecutiveMatches := 0, initialized := true }

/-- `LyricsAlignment::reset` (LyricsAlignment.cpp, lines 483-491). -/
def resetState : AlignerState :=
  ⟨[], 0, false, 0, false⟩

end LyricsAlignment

namespace ProfanityFilter

/-- `ProfanityFilter::isProfane` (ProfanityFilter.h, lines 96-101): lower-case
the incoming word and look it up in the loaded lexicon.  The lexicon is the
set of lines of the lexicon file, trimmed and lower-cased by `loadLexicon`;
it is a parameter here. -/
def isProfane (lexicon : List (List Char)) (word : List Char) : Bool :=
  let lower := word.map asciiToLower
  lexicon.contains lower

end ProfanityFilter

namespace LockFreeQueue

/-- The state of `LockFreeQueue<T, Capacity>` (LockFreeQueue.h): a head index,
a tail index and the backing array, modelled as a function from indices. -/
structure Queue (α : Type) where
  head : ℕ
  tail : ℕ
  data : ℕ → α

/-- `LockFreeQueue::increment`: `(idx + 1) & (Capacity - 1)`. -/
def increment (Capacity idx : ℕ) : ℕ :=
  (idx + 1) &&& (Capacity - 1)

/-- `LockFreeQueue::push` (LockFreeQueue.h, lines 63-79): compute the next
tail; if it equals the head the queue is full and `false` is returned with the
queue unchanged, otherwise the item is stored at the current tail and the tail
advances. -/
def push {α : Type} (Capacity : ℕ) (q : Queue α) (item : α) : Queue α × Bool :=
  let next_tail := increment Capacity q.tail
  if next_tail = q.head then (q, false)
  else ({ q with data := Function.update q.data q.tail item, tail := next_tail }, true)

/-- `LockFreeQueue::isFull` (LockFreeQueue.h, lines 148-152). -/
def isFull {α : Type} (Capacity : ℕ) (q : Queue α) : Bool :=
  increment Capacity q.tail = q.head

/-- A queue as freshly constructed: `head_ = 0`, `tail_ = 0`. -/
def emptyQueue {α : Type} (d : α) : Queue α :=
  ⟨0, 0, fun _ => d⟩

/-- Attempt to push every element of a list in order, with no intervening
pops, returning the final queue and the number of pushes that succeeded. -/
def pushList {α : Type} (Capacity : ℕ) (q : Queue α) : List α → Queue α × ℕ
  | [] => (q, 0)
  | x :: xs =>
    let p := push Capacity q x
    let r := pushList Capacity p.1 xs
    (r.1, (if p.2 then 1 else 0) + r.2)

end LockFreeQueue

namespace AudioEngine

/-- `AudioEngine::CensorMode`. -/
inductive CMode
  | mute
  | reverse
deriving DecidableEq, Repr

/-- The per-channel mute loop of `AudioEngine::processTranscription`
(AudioEngine.cpp, lines 1464-1472): for `i = startSample; i < endSample; ++i`
write `0` to delay-buffer cell `(chunkStartPos + i) % delayBufferSize`. -/
def muteChannel (N : ℕ) (buf : ℕ → ℚ) (chunkStartPos startSample endSample : ℕ) : ℕ → ℚ :=
  (List.range' startSample (endSample - startSample)).foldl
    (fun b i => Function.update b ((chunkStartPos + i) % N) 0) buf

/-- The mute branch applied to both channels (`for ch = 0; ch < 2; ++ch`). -/
def applyMute (N : ℕ) (buf : Fin 2 → ℕ → ℚ) (chunkStartPos startSample endSample : ℕ) :
    Fin 2 → ℕ → ℚ :=
  fun ch => muteChannel N (buf ch) chunkStartPos startSample endSample

/-- The gain the reverse branch applies at offset `i` of an interval of `n`
samples with fade length `fade`: a linear fade-in over the first `fade`
samples and fade-out over the last `fade`, everything scaled by the volume
reduction `0.5` (AudioEngine.cpp, lines 1492-1511). -/
def reverseGain (n fade i : ℕ) : ℚ :=
  if i < fade then ((i : ℚ) / (fade : ℚ)) * (1/2)
  else if n - fade ≤ i then (((n - i : ℕ) : ℚ) / (fade : ℚ)) * (1/2)
  else 1/2

/-- The per-channel reverse loop of `AudioEngine::processTranscription`
(AudioEngine.cpp, lines 1478-1515): copy the interval into a temporary
buffer, reverse it, and write it back faded and scaled by `0.5`, with
`fadeSamples = min(480, n / 4)`. -/
def reverseChannel (N : ℕ) (buf : ℕ → ℚ) (chunkStartPos startSample endSample : ℕ) : ℕ → ℚ :=
  let n := endSample - startSample
  let fade := min 480 (n / 4)
  let tmp : ℕ → ℚ := fun i => buf ((chunkStartPos + (startSample + i)) % N)
  let rev : ℕ → ℚ := fun i => tmp (n - 1 - i)
  (List.range n).foldl
    (fun b i => Function.update b ((chunkStartPos + (startSample + i)) % N)
      (reverseGain n fade i * rev i)) buf

/-- The reverse branch applied to both channels. -/
def applyReverse (N : ℕ) (buf : Fin 2 → ℕ → ℚ) (chunkStartPos startSample endSample : ℕ) :
    Fin 2 → ℕ → ℚ :=
  fun ch => reverseChannel N (buf ch) chunkStartPos startSample endSample

/-- Either rewrite branch, selected by `currentCensorMode`. -/
def applyCensorship (mode : CMode) (N : ℕ) (buf : Fin 2 → ℕ → ℚ)
    (chunkStartPos startSample endSample : ℕ) : Fin 2 → ℕ → ℚ :=
  match mode with
  | .mute => applyMute N buf chunkStartPos startSample endSample
  | .reverse => applyReverse N buf chunkStartPos startSample endSample

/-- A rewrite event, given by its censor mode and the absolute input-sample
interval `[startPos, endPos)` it covers.  `processTranscription` addresses the
delay buffer only through `(chunkStartPos + i) % delayBufferSize`, and
`chunkStartPos` is the wrapped position of the absolute chunk start, so
applying the rewrite with the absolute start and offsets `[0, endPos -
startPos)` touches exactly the same cells as the source loops. -/
structure Rewrite where
  mode : CMode
  startPos : ℕ
  endPos : ℕ
deriving DecidableEq, Repr

/-- Apply one rewrite event to the delay buffer. -/
def applyRewrite (N : ℕ) (buf : Fin 2 → ℕ → ℚ) (r : Rewrite) : Fin 2 → ℕ → ℚ :=
  applyCensorship r.mode N buf r.startPos 0 (r.endPos - r.startPos)

/-- Apply a list of rewrite events in order. -/
def applyRewrites (N : ℕ) (buf : Fin 2 → ℕ → ℚ) (rs : List Rewrite) : Fin 2 → ℕ → ℚ :=
  rs.foldl (applyRewrite N) buf

/-- Configuration of the delay loop: `delayBufferSize`, `sampleRate` and
`initialDelaySeconds` (AudioEngine.h, defaults 48000 * 13, 48000, 3.0). -/
structure EngineCfg where
  delayBufferSize : ℕ
  sampleRate : ℕ
  initialDelaySeconds : ℚ

/-- The state the per-sample loop of `audioDeviceIOCallbackWithContext`
mutates: the delay buffer, both cursors, the `playbackStarted` flag and the
function-static `wasPaused` flag. -/
structure EngineState where
  delayBuffer : Fin 2 → ℕ → ℚ
  delayWritePos : ℕ
  delayReadPos : ℕ
  playbackStarted : Bool
  wasPaused : Bool

/-- The gating decision of the per-sample loop of
`AudioEngine::audioDeviceIOCallbackWithContext` (AudioEngine.cpp, lines
770-816): before playback, start (and play) once the buffered seconds reach
`initialDelaySeconds`; afterwards pause when they drop below
`initialDelaySeconds - 2` and resume at `initialDelaySeconds`.  Returns
`(playNow, playbackStarted, wasPaused)`. -/
def gateStep (cfg : EngineCfg) (playbackStarted wasPaused : Bool) (currentGap : ℕ) :
    Bool × Bool × Bool :=
  let bufferSeconds : ℚ := (currentGap : ℚ) / (cfg.sampleRate : ℚ)
  if playbackStarted = false then
    let canPlay : Bool := decide (cfg.initialDelaySeconds ≤ bufferSeconds)
    (canPlay, canPlay, wasPaused)
  else
    let wasPaused1 : Bool :=
      if bufferSeconds < cfg.initialDelaySeconds - 2 ∧ wasPaused = false then true
      else if cfg.initialDelaySeconds ≤ bufferSeconds ∧ wasPaused = true then false
      else wasPaused
    (!wasPaused1, true, wasPaused1)

/-- One iteration of the per-sample loop of
`AudioEngine::audioDeviceIOCallbackWithContext` (AudioEngine.cpp, lines
764-843), for a stereo frame `x`: write the input frame at `delayWritePos`,
compute the gap and the gating decision, emit either the delayed frame at
`delayReadPos` or silence, then advance `delayWritePos` always and
`delayReadPos` only when playing.  Returns the new state and the output
frame. -/
def frameStep (cfg : EngineCfg) (s : EngineState) (x : Fin 2 → ℚ) :
    EngineState × (Fin 2 → ℚ) :=
  let N := cfg.delayBufferSize
  let buf1 : Fin 2 → ℕ → ℚ := fun ch idx => if idx = s.delayWritePos then x ch else s.delayBuffer ch idx
  let currentGap := (s.delayWritePos + N - s.delayReadPos) % N
  let cps : Bool × Bool × Bool := gateStep cfg s.playbackStarted s.wasPaused currentGap
  let out : Fin 2 → ℚ := fun ch => if cps.1 = true then buf1 (min ch 1) s.delayReadPos else 0
  (⟨buf1, (s.delayWritePos + 1) % N,
    if cps.1 = true then (s.delayReadPos + 1) % N else s.delayReadPos,
    cps.2.1, cps.2.2⟩, out)

/-- The state set up by `audioDeviceAboutToStart`: a zeroed delay buffer,
both cursors at `0`, playback not yet started. -/
def initState : EngineState :=
  ⟨fun _ _ => 0, 0, 0, false, false⟩

/-- The engine state after `t` input frames of the stream `x`, where before
frame `t` the rewrite events `sched t` (the censor intervals the worker hands
over between callbacks) are applied to the delay buffer. -/
def stateAt (cfg : EngineCfg) (sched : ℕ → List Rewrite) (x : ℕ → Fin 2 → ℚ) : ℕ → EngineState
  | 0 => initState
  | t + 1 =>
    let s := stateAt cfg sched x t
    (frameStep cfg
      { s with delayBuffer := applyRewrites cfg.delayBufferSize s.delayBuffer (sched t) }
      (x t)).1

/-- The output frame the callback emits at frame `t`. -/
def outputAt (cfg : EngineCfg) (sched : ℕ → List Rewrite) (x : ℕ → Fin 2 → ℚ) (t : ℕ) :
    Fin 2 → ℚ :=
  let s := stateAt cfg sched x t
  (frameStep cfg
    { s with delayBuffer := applyRewrites cfg.delayBufferSize s.delayBuffer (sched t) }
    (x t)).2

/-- The buffer-health update of `audioDeviceIOCallbackWithContext`
(AudioEngine.cpp, lines 729-755): once playback has started, the
`bufferUnderrun` flag raises when the buffered seconds drop strictly below
`chunkSeconds + 0.5` and clears when they strictly exceed
`initialDelaySeconds`; before playback starts it is left alone. -/
def updateBufferUnderrun (chunkSeconds initialDelaySeconds : ℚ) (playbackStarted : Bool)
    (currentBufferSize : ℚ) (bufferUnderrun : Bool) : Bool :=
  if playbackStarted = true then
    if currentBufferSize < chunkSeconds + 1/2 ∧ bufferUnderrun = false then true
    else if initialDelaySeconds < currentBufferSize ∧ bufferUnderrun = true then false
    else bufferUnderrun
  else bufferUnderrun

/-- Result of handling one detected profanity interval in
`processTranscription`. -/
structure GateResult where
  delayBuffer : Fin 2 → ℕ → ℚ
  recordedSkipped : Bool
  censored : Bool

/-- The underrun gate of `AudioEngine::processTranscription` (AudioEngine.cpp,
lines 1387-1518, condensed to the delay-buffer effect): when `bufferUnderrun`
is set the detected interval is skipped, recorded as `SKIPPED`, and the delay
buffer is left untouched; otherwise the configured rewrite is applied in
place. -/
def processDetectedProfanity (bufferUnderrun : Bool) (mode : CMode) (N : ℕ)
    (buf : Fin 2 → ℕ → ℚ) (chunkStartPos startSample endSample : ℕ) : GateResult :=
  if bufferUnderrun = true then ⟨buf, true, false⟩
  else ⟨applyCensorship mode N buf chunkStartPos startSample endSample, false, true⟩

/-- The chunk-accumulation state of the audio callback: the fixed-size
`audioBuffer` (capacity `sampleRate * chunkSeconds`), its write cursor, and
the `transcriptionInterval` sample counter. -/
structure AccumState where
  audioBuffer : ℕ → ℚ
  bufferWritePos : ℕ
  transcriptionInterval : ℕ

/-- The accumulation state at stream start: zeroed buffer, both counters 0. -/
def initAccum : AccumState :=
  ⟨fun _ => 0, 0, 0⟩

/-- Accumulation of one downmixed mono sample (AudioEngine.cpp, lines
596-601): the sample is stored only while `bufferWritePos` is below the
buffer capacity; otherwise it is dropped. -/
def accumulateSample (audioBufferSize : ℕ) (st : AccumState) (monoSample : ℚ) : AccumState :=
  if st.bufferWritePos < audioBufferSize then
    { st with audioBuffer := Function.update st.audioBuffer st.bufferWritePos monoSample,
              bufferWritePos := st.bufferWritePos + 1 }
  else st

/-- One callback worth of accumulation and hand-off (AudioEngine.cpp, lines
586-608 and 677-726): accumulate every sample of the block, add the block
length to `transcriptionInterval`, and hand the chunk to the worker (resetting
`bufferWritePos` and `transcriptionInterval`) only when a full chunk has been
counted AND the worker is idle (`hasNewBuffer` clear).  Returns the new state
and whether a chunk was posted. -/
def callbackAccumulate (audioBufferSize : ℕ) (hasNewBuffer : Bool) (st : AccumState)
    (samples : List ℚ) : AccumState × Bool :=
  let st1 := samples.foldl (accumulateSample audioBufferSize) st
  let st2 := { st1 with transcriptionInterval := st1.transcriptionInterval + samples.length }
  if audioBufferSize ≤ st2.transcriptionInterval ∧ hasNewBuffer = false then
    ({ st2 with bufferWritePos := 0, transcriptionInterval := 0 }, true)
  else (st2, false)

end AudioEngine

namespace TimestampRefiner

/-- `WINDOW_SIZE = 480` (10 ms at 48 kHz, TimestampRefiner.h). -/
def WINDOW_SIZE : ℤ := 480

/-- `SEARCH_RADIUS = 38400` (0.8 s at 48 kHz). -/
def SEARCH_RADIUS : ℤ := 38400

/-- `ENERGY_THRESHOLD = 0.001`. -/
def ENERGY_THRESHOLD : ℚ := 1/1000

/-- `ZC_THRESHOLD = 0.1`. -/
def ZC_THRESHOLD : ℚ := 1/10

/-- `MIN_WORD_DURATION = 0.05`. -/
def MIN_WORD_DURATION : ℚ := 1/20

/-- `MAX_WORD_DURATION = 2.0`. -/
def MAX_WORD_DURATION : ℚ := 2

/-- The index list of a C loop `for (int i = start; i < stop; i += step)`
with positive `step`: `start, start + step, ...`, of length
`max 0 (ceil ((stop - start) / step))`. -/
def strideRange (start stop step : ℤ) : List ℤ :=
  (List.range ((stop - start + step - 1).toNat / step.toNat)).map
    (fun (k : ℕ) => start + step * (k : ℤ))

/-- `TimestampRefiner::calculateEnergy` (TimestampRefiner.cpp, lines 18-32):
out-of-range windows score `0`; otherwise the square root of the mean square
over the window.  The square root is the explicit parameter `sqrtFn`. -/
def calculateEnergy (sqrtFn : ℚ → ℚ) (audio : List ℚ) (start len : ℤ) : ℚ :=
  if start < 0 ∨ (audio.length : ℤ) < start + len then 0
  else
    let sum := (List.range len.toNat).foldl
      (fun (acc : ℚ) (k : ℕ) =>
        let sample := audio.getD (start + (k : ℤ)).toNat 0
        acc + sample * sample) 0
    sqrtFn (sum / (len : ℚ))

/-- `TimestampRefiner::calculateZeroCrossing` (TimestampRefiner.cpp, lines
34-51): out-of-range windows score `0`; otherwise the number of sign changes
between consecutive samples of the window, divided by the window length. -/
def calculateZeroCrossing (audio : List ℚ) (start len : ℤ) : ℚ :=
  if start < 0 ∨ (audio.length : ℤ) < start + len then 0
  else
    let crossings := (List.range (len.toNat - 1)).foldl
      (fun (acc : ℕ) (k : ℕ) =>
        let i := start + 1 + (k : ℤ)
        let a := audio.getD i.toNat 0
        let b := audio.getD (i - 1).toNat 0
        if (0 ≤ a ∧ b < 0) ∨ (a < 0 ∧ 0 ≤ b) then acc + 1 else acc) 0
    (crossings : ℚ) / (len : ℚ)

/-- `TimestampRefiner::findBestBoundary` (TimestampRefiner.cpp, lines 53-90):
scan candidate positions in steps of `WINDOW_SIZE / 4` (backwards of the
centre for a start boundary, forwards for an end boundary), skip positions
whose two flanking windows do not fit in the buffer, and keep the position
with the best signed energy step among those whose absolute gradient exceeds
`ENERGY_THRESHOLD`; default to `centerSample`.  Returns seconds. -/
def findBestBoundary (sqrtFn : ℚ → ℚ) (audio : List ℚ) (centerSample searchRadius : ℤ)
    (sampleRate : ℤ) (findStart : Bool) : ℚ :=
  let size : ℤ := audio.length
  let searchStart := max 0 (centerSample - (if findStart then searchRadius else 0))
  let searchEnd := min size (centerSample + (if findStart then 0 else searchRadius))
  let best := (strideRange searchStart searchEnd (WINDOW_SIZE / 4)).foldl
    (fun (best : ℚ × ℤ) i =>
      if i < WINDOW_SIZE ∨ size ≤ i + WINDOW_SIZE then best
      else
        let energyBefore := calculateEnergy sqrtFn audio (i - WINDOW_SIZE) WINDOW_SIZE
        let energyAfter := calculateEnergy sqrtFn audio i WINDOW_SIZE
        let gradient := |energyAfter - energyBefore|
        let score := if findStart then energyAfter - energyBefore else energyBefore - energyAfter
        if best.1 < score ∧ ENERGY_THRESHOLD < gradient then (score, i) else best)
    (-1, centerSample)
  (best.2 : ℚ) / (sampleRate : ℚ)

/-- `INT_MAX`, the initial value of the closest-region distance. -/
def INT_MAX : ℤ := 2147483647

/-- The two sanity clamps at the end of `searchForSpeech`
(TimestampRefiner.cpp, lines 175-182): when `refinedEnd ≤ refinedStart`, set
the end to `refinedStart + MIN_WORD_DURATION`; when the resulting duration
exceeds `MAX_WORD_DURATION`, cap it at `refinedStart + MAX_WORD_DURATION`. -/
def clampDuration (refinedStart refinedEnd : ℚ) : ℚ × ℚ :=
  let refinedEnd1 :=
    if refinedEnd ≤ refinedStart then refinedStart + MIN_WORD_DURATION else refinedEnd
  let refinedEnd2 :=
    if MAX_WORD_DURATION < refinedEnd1 - refinedStart then refinedStart + MAX_WORD_DURATION
    else refinedEnd1
  (refinedStart, refinedEnd2)

/-- The speech-region scan of `TimestampRefiner::searchForSpeech`
(TimestampRefiner.cpp, lines 113-135): walk the search range in window
steps, tracking `(regions, inSpeech, regionStart)`, opening a region at the
first speech window and closing it at the first non-speech window. -/
def speechScan (sqrtFn : ℚ → ℚ) (audio : List ℚ) (searchStart searchEnd : ℤ) :
    List (ℤ × ℤ) × Bool × ℤ :=
  (strideRange searchStart searchEnd WINDOW_SIZE).foldl
    (fun (acc : List (ℤ × ℤ) × Bool × ℤ) i =>
      let energy := calculateEnergy sqrtFn audio i WINDOW_SIZE
      let zc := calculateZeroCrossing audio i WINDOW_SIZE
      let isSpeech := ENERGY_THRESHOLD < energy ∧ ZC_THRESHOLD < zc
      if isSpeech ∧ acc.2.1 = false then (acc.1, true, i)
      else if ¬isSpeech ∧ acc.2.1 = true then (acc.1 ++ [(acc.2.2, i)], false, acc.2.2)
      else acc)
    ([], false, 0)

/-- The speech regions of the search range, the scan closed by the trailing
region when still in speech at the end (TimestampRefiner.cpp, lines
137-138). -/
def energyRegionsOf (sqrtFn : ℚ → ℚ) (audio : List ℚ) (searchStart searchEnd : ℤ) :
    List (ℤ × ℤ) :=
  let scan := speechScan sqrtFn audio searchStart searchEnd
  if scan.2.1 = true then scan.1 ++ [(scan.2.2, searchEnd)] else scan.1

/-- The tail of `TimestampRefiner::searchForSpeech` (TimestampRefiner.cpp,
lines 140-182): return the recogniser estimate unchanged when no region was
found, otherwise pick the region whose centre is closest to the recogniser
centre (distances of regions before the centre scaled by `0.8` and
truncated, ties kept on the earlier region), refine its boundaries with
`findBestBoundary`, and apply the two sanity clamps. -/
def pickRegionAndClamp (sqrtFn : ℚ → ℚ) (audio : List ℚ) (whisperCenter : ℤ)
    (sampleRate : ℤ) (whisperStart whisperEnd : ℚ) : List (ℤ × ℤ) → ℚ × ℚ
  | [] => (whisperStart, whisperEnd)
  | r0 :: rest =>
    let bestPick := (r0 :: rest).foldl
      (fun (acc : ℤ × (ℤ × ℤ)) region =>
        let regionCenter := (region.1 + region.2) / 2
        let dist0 := |regionCenter - whisperCenter|
        let dist := if regionCenter < whisperCenter then (dist0 * 4) / 5 else dist0
        if dist < acc.1 then (dist, region) else acc)
      (INT_MAX, r0)
    let bestRegion := bestPick.2
    let refinedStart := findBestBoundary sqrtFn audio bestRegion.1 (WINDOW_SIZE * 4) sampleRate true
    let refinedEnd := findBestBoundary sqrtFn audio bestRegion.2 (WINDOW_SIZE * 4) sampleRate false
    clampDuration refinedStart refinedEnd

/-- The entry of `TimestampRefiner::searchForSpeech`: clamp the recogniser
samples, determine the search range, and hand the speech regions of that
range to the selection tail.  (`whisperCenter` is computed up front here; the
source computes it after the empty-region early return, with the same
value.) -/
def searchForSpeech (sqrtFn : ℚ → ℚ) (audio : List ℚ) (whisperStart whisperEnd : ℚ)
    (sampleRate : ℤ) : ℚ × ℚ :=
  let size : ℤ := audio.length
  let wss0 := ratTruncInt (whisperStart * (sampleRate : ℚ))
  let wes0 := ratTruncInt (whisperEnd * (sampleRate : ℚ))
  let wss := max 0 (min wss0 (size - 1))
  let wes := max wss (min wes0 size)
  let searchStart := max 0 (wss - SEARCH_RADIUS)
  let searchEnd := min size (wes + SEARCH_RADIUS)
  let whisperCenter := (wss + wes) / 2
  pickRegionAndClamp sqrtFn audio whisperCenter sampleRate whisperStart whisperEnd
    (energyRegionsOf sqrtFn audio searchStart searchEnd)

/-- `TimestampRefiner::refineWordTimestamp` (TimestampRefiner.cpp, lines
185-225): replace the word timing by the result of `searchForSpeech`.  (The
max-energy loop of the source only feeds a debug log line and does not affect
the result.) -/
def refineWordTimestamp (sqrtFn : ℚ → ℚ) (word : LyricsAlignment.WordSegment)
    (audio : List ℚ) (sampleRate : ℤ) : LyricsAlignment.WordSegment :=
  let r := searchForSpeech sqrtFn audio word.start word.stop sampleRate
  { word with start := r.1, stop := r.2 }

/-- An exact rational square root on perfect squares: `ratSqrt (a * a) = a`
for `0 ≤ a`, used to instantiate `sqrtFn` on concrete inputs on which every
reached call receives a perfect square. -/
def ratSqrt (q : ℚ) : ℚ :=
  (Nat.sqrt (q.num.toNat * q.den) : ℚ) / (q.den : ℚ)

end TimestampRefiner

namespace AudioEngine

/-- Whether a rewrite event covers the absolute input-sample index `j`. -/
def covers (r : Rewrite) (j : ℕ) : Prop :=
  r.startPos ≤ j ∧ j < r.endPos

instance (r : Rewrite) (j : ℕ) : Decidable (covers r j) := by
  unfold covers; infer_instance

/-- The value the rewrite operator leaves at absolute index `j` when applied
to an interval whose cells still hold the original input samples `x`: `0` for
a mute; for a reverse, the mirrored original sample scaled by the fade gain
at offset `j - startPos`. -/
def rewriteValue (r : Rewrite) (x : ℕ → Fin 2 → ℚ) (j : ℕ) (ch : Fin 2) : ℚ :=
  match r.mode with
  | .mute => 0
  | .reverse =>
    let n := r.endPos - r.startPos
    reverseGain n (min 480 (n / 4)) (j - r.startPos) * x (r.endPos - 1 - (j - r.startPos)) ch

/-- Disjointness of the intervals of two rewrite events. -/
def ivDisj (r s : Rewrite) : Prop :=
  r.endPos ≤ s.startPos ∨ s.endPos ≤ r.startPos

/-- The read-back shape the specification asserts for a muted interval
`[s, e)` (spec §4.5 "Mute" and §8 "Mute-then-measure"), modelled from the
spec wording with the fade length `min(480, n/4)` the engine computes at
AudioEngine.cpp line 1460 and the linear gains of the repository's own
`CensorshipEngine::muteSamples` / `applyFadeOut` / `applyFadeIn`
(CensorshipEngine.h, lines 107-140 and 187-232): a linear fade-out over the
leading fade window, exact zeros across the interior, and a linear fade-in
over the trailing fade window.  This definition follows the claim, for
comparison with the mute the engine actually applies. -/
def claimedMuteShape (orig result : ℕ → ℚ) (s e : ℕ) : Prop :=
  let n := e - s
  let fade := min 480 (n / 4)
  (∀ i < fade, result (s + i) = (1 - (i : ℚ) / (fade : ℚ)) * orig (s + i)) ∧
  (∀ i < e - fade, s + fade ≤ i → result i = 0) ∧
  (∀ i < fade, result (e - fade + i) = ((i : ℚ) / (fade : ℚ)) * orig (e - fade + i))

instance (orig result : ℕ → ℚ) (s e : ℕ) : Decidable (claimedMuteShape orig result s e) := by
  unfold claimedMuteShape; infer_instance

end AudioEngine

/-- Concrete 480-sample buffer used to exercise the timestamp refiner: a
full-scale square wave at the Nyquist rate (amplitude `1/2`, alternating
sign), so that every in-range analysis window has mean square exactly `1/4`
and zero-crossing rate `479/480`.  On this input every `sqrtFn` call of the
refiner receives `0` or `1/4`, where `TimestampRefiner.ratSqrt` agrees with
the real square root. -/
def refinerBurstAudio : List ℚ :=
  (List.range 480).map (fun k => if k % 2 = 0 then (1/2 : ℚ) else -(1/2))

/-- Twenty-word lyrics used to exercise `predictNextWords` at cursor 10. -/
def predictLyricsState : LyricsAlignment.AlignerState :=
  { LyricsAlignment.setLyrics
      ("alpha bravo charlie delta echo foxtrot golf hotel india juliett " ++
       "kilo lima mike november oscar papa quebec romeo sierra tango").toList with
    currentPosition := 10, locked := true }

/-- The scenario lyrics of spec §8, test 4. -/
def scenarioLyrics : LyricsAlignment.AlignerState :=
  LyricsAlignment.setLyrics "the quick brown fox jumps over the lazy dog".toList

/-- A recognised chunk word with confidence `0.9`, the segment-level
confidence `processTranscription` assigns. -/
def scenarioWord (s : String) (a b : ℚ) : LyricsAlignment.WordSegment :=
  ⟨s.toList, a, b, 9/10⟩

/-- Chunk 1 of the scenario: raw transcription `the quick`. -/
def scenarioChunk1 : List LyricsAlignment.WordSegment :=
  [scenarioWord "the" 0 1, scenarioWord "quick" 1 2]

/-- Chunk 2 of the scenario: raw transcription `brown fox`. -/
def scenarioChunk2 : List LyricsAlignment.WordSegment :=
  [scenarioWord "brown" 0 1, scenarioWord "fox" 1 2]

/-- Chunk 3 of the scenario: raw transcription `jumps over`. -/
def scenarioChunk3 : List LyricsAlignment.WordSegment :=
  [scenarioWord "jumps" 0 1, scenarioWord "over" 1 2]

/-- Aligner state after scenario chunk 1 (`absoluteTime = 0`). -/
def scenarioState1 : LyricsAlignment.AlignerState :=
  (LyricsAlignment.alignChunk scenarioLyrics scenarioChunk1 0).1

/-- Aligner state after scenario chunk 2 (`absoluteTime = 2`, the elapsed
`songElapsedTime` after one 2-second chunk). -/
def scenarioState2 : LyricsAlignment.AlignerState :=
  (LyricsAlignment.alignChunk scenarioState1 scenarioChunk2 2).1

/-- Aligner state after scenario chunk 3 (`absoluteTime = 4`). -/
def scenarioState3 : LyricsAlignment.AlignerState :=
  (LyricsAlignment.alignChunk scenarioState2 scenarioChunk3 4).1

/-- A four-word chunk whose last word normalizes away: its text matches the
last three lyrics words perfectly, so the matched window is clipped at the
end of the lyrics while the chunk word count is `4`. -/
def counterChunk : List LyricsAlignment.WordSegment :=
  [scenarioWord "the" 0 1, scenarioWord "lazy" 1 2, scenarioWord "dog" 2 3,
    scenarioWord "!!!" 3 4]

/-- The state chunk 1 is expected to leave: cursor `2`, one consecutive
match, not locked. -/
def scenarioMid1 : LyricsAlignment.AlignerState :=
  { scenarioLyrics with currentPosition := 2, consecutiveMatches := 1 }

/-- The state chunk 2 is expected to leave: cursor `4`, two consecutive
matches, locked. -/
def scenarioMid2 : LyricsAlignment.AlignerState :=
  { scenarioLyrics with currentPosition := 4, locked := true, consecutiveMatches := 2 }

/-- The state chunk 3 is expected to leave: cursor `6`, three consecutive
matches, locked. -/
def scenarioMid3 : LyricsAlignment.AlignerState :=
  { scenarioLyrics with currentPosition := 6, locked := true, consecutiveMatches := 3 }

/-- A miniature configuration of the delay loop used to exercise the delay
bound on a concrete run: ring of 8 cells, 1 sample per second, 3 seconds of
initial delay, so `D = 3` samples. -/
def witnessCfg : AudioEngine.EngineCfg := ⟨8, 1, 3⟩

/-- A concrete rewrite schedule: one mute of absolute interval `[1, 2)`
handed over before frame 4 (it satisfies `endPos ≤ 4 ≤ startPos + 3`). -/
def witnessSched : ℕ → List AudioEngine.Rewrite :=
  fun t => if t = 4 then [⟨AudioEngine.CMode.mute, 1, 2⟩] else []

/-- A concrete input stream: frame `t` carries the value `t + 1` on both
channels. -/
def witnessInput : ℕ → Fin 2 → ℚ :=
  fun t _ => (t : ℚ) + 1

/-! ## General lemmas -/

/-- A left fold of pointwise updates leaves an index untouched by every
update unchanged. -/
theorem foldl_update_of_ne {l : List ℕ} {f : ℕ → ℕ} {v : ℕ → ℚ} {b : ℕ → ℚ} {idx : ℕ}
    (h : ∀ i ∈ l, f i ≠ idx) :
    (l.foldl (fun acc i => Function.update acc (f i) (v i)) b) idx = b idx := by
  induction l generalizing b with
  | nil => rfl
  | cons a l ih =>
    simp only [List.foldl_cons]
    rw [ih (fun i hi => h i (List.mem_cons_of_mem a hi))]
    exact Function.update_noteq (Ne.symm (h a (List.mem_cons_self a l))) _ _

/-- A left fold of pointwise updates stores `w` at an index that some update
hits, provided every update hitting that index stores `w`. -/
theorem foldl_update_of_eq {l : List ℕ} {f : ℕ → ℕ} {v : ℕ → ℚ} {b : ℕ → ℚ} {idx : ℕ} {w : ℚ}
    (hsame : ∀ i ∈ l, f i = idx → v i = w)
    (hex : ∃ i ∈ l, f i = idx) :
    (l.foldl (fun acc i => Function.update acc (f i) (v i)) b) idx = w := by
  induction l generalizing b with
  | nil => rcases hex with ⟨i, hi, _⟩; exact absurd hi (List.not_mem_nil i)
  | cons a l ih =>
    simp only [List.foldl_cons]
    by_cases hrest : ∃ i ∈ l, f i = idx
    · exact ih (fun i hi => hsame i (List.mem_cons_of_mem a hi)) hrest
    · rcases hex with ⟨i, hi, hfi⟩
      rcases List.mem_cons.mp hi with rfl | hi'
      · rw [foldl_update_of_ne (fun j hj hj' => hrest ⟨j, hj, hj'⟩), hfi,
          Function.update_same]
        exact hsame i (List.mem_cons_self i l) hfi
      · exact absurd ⟨i, hi', hfi⟩ hrest

/-- `ratTruncInt` of a non-negative rational is non-negative. -/
theorem ratTruncInt_nonneg {q : ℚ} (h : 0 ≤ q) : 0 ≤ ratTruncInt q := by
  unfold ratTruncInt
  rw [if_pos h]
  exact Int.floor_nonneg.mpr h

namespace AudioEngine

/-- Every cell of a muted interval reads back zero. -/
theorem muteChannel_covered (N : ℕ) (buf : ℕ → ℚ) (cs ss es i : ℕ)
    (h1 : ss ≤ i) (h2 : i < es) :
    muteChannel N buf cs ss es ((cs + i) % N) = 0 := by
  unfold muteChannel
  exact foldl_update_of_eq (fun j _ _ => rfl)
    ⟨i, List.mem_range'_1.mpr ⟨h1, by omega⟩, rfl⟩

/-- Cells hit by no write of the mute loop are unchanged. -/
theorem muteChannel_notCovered (N : ℕ) (buf : ℕ → ℚ) (cs ss es idx : ℕ)
    (h : ∀ i, ss ≤ i → i < es → (cs + i) % N ≠ idx) :
    muteChannel N buf cs ss es idx = buf idx := by
  unfold muteChannel
  refine foldl_update_of_ne (fun i hi => ?_)
  rw [List.mem_range'_1] at hi
  exact h i hi.1 (by omega)

end AudioEngine

/-! ## C5: SPSC queue capacity -/

namespace LockFreeQueue

/-- Evaluation of `increment` at capacity 64. -/
theorem increment64 : ∀ t < 64, increment 64 t = if t = 63 then 0 else t + 1 := by decide

/-- Pushing a list into a capacity-64 queue with `head = 0` and `tail = t ≤ 63`
and no pops: the number of successful pushes is `min length (63 - t)`, the
head stays put, and the tail ends at `min (t + length) 63`. -/
theorem pushList_spec {α : Type} (l : List α) :
    ∀ (q : Queue α) (t : ℕ), q.tail = t → t ≤ 63 → q.head = 0 →
      (pushList 64 q l).2 = min l.length (63 - t) ∧
      (pushList 64 q l).1.head = 0 ∧
      (pushList 64 q l).1.tail = min (t + l.length) 63 := by
  induction l with
  | nil =>
    intro q t htl ht hh
    exact ⟨by simp [pushList], by simp [pushList, hh], by simp [pushList, htl]; omega⟩
  | cons a l ih =>
    intro q t htl ht hh
    by_cases h63 : t = 63
    · have hp : push 64 q a = (q, false) := by
        unfold push
        rw [htl, h63, hh, increment64 63 (by norm_num)]
        simp
      have hq := ih q t htl ht hh
      simp only [pushList, hp, List.length_cons]
      refine ⟨?_, hq.2.1, ?_⟩
      · simp only [Bool.false_eq_true, if_false]
        rw [hq.1]; omega
      · rw [hq.2.2]; omega
    · have hinc : increment 64 q.tail = t + 1 := by
        rw [htl, increment64 t (by omega)]
        simp [h63]
      have hp : push 64 q a =
          ({ q with data := Function.update q.data q.tail a, tail := t + 1 }, true) := by
        unfold push
        rw [hinc, if_neg (by rw [hh]; omega)]
      have hq := ih { q with data := Function.update q.data q.tail a, tail := t + 1 }
        (t + 1) rfl (by omega) hh
      simp only [pushList, hp, List.length_cons]
      refine ⟨?_, hq.2.1, ?_⟩
      · simp only [if_true]
        rw [hq.1]; omega
      · rw [hq.2.2]; omega

end LockFreeQueue

/-- C5 (amended): for the SPSC queue instantiated with capacity 64, if the
consumer never pops, exactly 63 pushes succeed (one ring slot is sacrificed
to distinguish full from empty), every subsequent push returns false, and the
number of rejected pushes equals the number attempted minus 63. -/
theorem C5_queue_capacity (α : Type) (d : α) (items : List α) (h : 63 ≤ items.length) :
    (LockFreeQueue.pushList 64 (LockFreeQueue.emptyQueue d) items).2 = 63 ∧
    items.length - (LockFreeQueue.pushList 64 (LockFreeQueue.emptyQueue d) items).2 =
      items.length - 63 ∧
    ∀ y : α, (LockFreeQueue.push 64
        (LockFreeQueue.pushList 64 (LockFreeQueue.emptyQueue d) items).1 y).2 = false := by
  have hs := LockFreeQueue.pushList_spec items (LockFreeQueue.emptyQueue d) 0 rfl
    (by omega) rfl
  have hcnt : (LockFreeQueue.pushList 64 (LockFreeQueue.emptyQueue d) items).2 = 63 := by
    rw [hs.1]; omega
  refine ⟨hcnt, by rw [hcnt], fun y => ?_⟩
  have htail : (LockFreeQueue.pushList 64 (LockFreeQueue.emptyQueue d) items).1.tail = 63 := by
    rw [hs.2.2]; omega
  unfold LockFreeQueue.push
  rw [if_pos]
  rw [htail, hs.2.1, LockFreeQueue.increment64 63 (by norm_num)]
  simp

/-- C5 counterexample: pushing 64 items into the freshly constructed
capacity-64 queue yields only 63 successes, not the 64 the claim states. -/
theorem C5_queue_counterexample :
    (LockFreeQueue.pushList 64 (LockFreeQueue.emptyQueue (0 : ℕ)) (List.range 64)).2 = 63 ∧
    (63 : ℕ) ≠ 64 := by
  have hs := LockFreeQueue.pushList_spec (List.range 64) (LockFreeQueue.emptyQueue (0 : ℕ))
    0 rfl (by omega) rfl
  refine ⟨?_, by omega⟩
  rw [hs.1]; simp

/-- C5 witness: the amended statement applied to the concrete run of 64
pushes of `0, 1, ..., 63`. -/
theorem C5_queue_witness :
    63 ≤ (List.range 64).length ∧
    (LockFreeQueue.pushList 64 (LockFreeQueue.emptyQueue (0 : ℕ)) (List.range 64)).2 = 63 :=
  ⟨by simp, (C5_queue_capacity ℕ 0 (List.range 64) (by simp)).1⟩

/-! ## C2: critical-underrun flag and rewrite gating -/

/-- C2 (amended): after playback has started, the critical-underrun flag is
raised exactly when the buffered gap falls strictly below
`chunk_seconds + 0.5` seconds, and it clears exactly when the gap strictly
exceeds `initial_delay_seconds` (reaching `initial_delay_seconds` exactly
does not clear it); while the flag is raised, a detected profanity interval
is never applied to the delay line — the buffer is returned untouched and the
event is recorded as skipped. -/
theorem C2_underrun_gate :
    (∀ (chunkSeconds initialDelaySeconds gap : ℚ) (flag : Bool),
      (flag = false →
        (AudioEngine.updateBufferUnderrun chunkSeconds initialDelaySeconds true gap flag = true ↔
          gap < chunkSeconds + 1/2)) ∧
      (flag = true →
        (AudioEngine.updateBufferUnderrun chunkSeconds initialDelaySeconds true gap flag = false ↔
          initialDelaySeconds < gap))) ∧
    (∀ (mode : AudioEngine.CMode) (N : ℕ) (buf : Fin 2 → ℕ → ℚ) (cs ss es : ℕ),
      AudioEngine.processDetectedProfanity true mode N buf cs ss es = ⟨buf, true, false⟩) := by
  constructor
  · intro c d g flag
    constructor <;> intro hf <;> subst hf <;>
      simp only [AudioEngine.updateBufferUnderrun] <;> split_ifs <;> simp_all
  · intro mode N buf cs ss es
    simp [AudioEngine.processDetectedProfanity]

/-- C2 counterexample: with `chunk_seconds = 2` and `initial_delay_seconds
= 3`, a raised flag and the gap back at exactly 3 seconds, the update leaves
the flag raised, although the claim states the flag clears once the gap
reaches `initial_delay_seconds`. -/
theorem C2_underrun_counterexample :
    AudioEngine.updateBufferUnderrun 2 3 true 3 true = true := by
  simp only [AudioEngine.updateBufferUnderrun]
  norm_num

/-- C2 witness: the amended statement applied at a concrete raise (gap 2 s
below the 2.5 s threshold) and a concrete skipped interval. -/
theorem C2_underrun_witness :
    AudioEngine.updateBufferUnderrun 2 3 true 2 false = true ∧
    AudioEngine.processDetectedProfanity true AudioEngine.CMode.mute 8
      (fun _ _ => 1) 0 0 4 = ⟨(fun _ _ => 1), true, false⟩ :=
  ⟨((C2_underrun_gate.1 2 3 2 false).1 rfl).mpr (by norm_num),
   C2_underrun_gate.2 AudioEngine.CMode.mute 8 (fun _ _ => 1) 0 0 4⟩

/-! ## C3: accumulation while the worker is busy -/

/-- C3: evaluation of the accumulator at the failing input.  With chunk
capacity 4 and the chunk-in-flight flag set throughout, the callback stores
the first four samples, but the fifth incoming sample is dropped: the
accumulator contents and its write cursor are unchanged by the fifth sample
(only the `transcriptionInterval` counter grows), and the value `5` is stored
nowhere.  This contradicts the claim that every new input sample is
accumulated while the worker is busy. -/
theorem C3_accumulator_drops_when_full :
    (AudioEngine.callbackAccumulate 4 true AudioEngine.initAccum [1, 2, 3, 4]).2 = false ∧
    (AudioEngine.callbackAccumulate 4 true
      (AudioEngine.callbackAccumulate 4 true AudioEngine.initAccum [1, 2, 3, 4]).1 [5]).2
        = false ∧
    (AudioEngine.callbackAccumulate 4 true
      (AudioEngine.callbackAccumulate 4 true AudioEngine.initAccum [1, 2, 3, 4]).1
        [5]).1.bufferWritePos = 4 ∧
    (AudioEngine.callbackAccumulate 4 true
      (AudioEngine.callbackAccumulate 4 true AudioEngine.initAccum [1, 2, 3, 4]).1
        [5]).1.transcriptionInterval = 5 ∧
    (AudioEngine.callbackAccumulate 4 true
      (AudioEngine.callbackAccumulate 4 true AudioEngine.initAccum [1, 2, 3, 4]).1
        [5]).1.audioBuffer =
      (AudioEngine.callbackAccumulate 4 true AudioEngine.initAccum [1, 2, 3, 4]).1.audioBuffer ∧
    ∀ i : ℕ,
      (AudioEngine.callbackAccumulate 4 true
        (AudioEngine.callbackAccumulate 4 true AudioEngine.initAccum [1, 2, 3, 4]).1
          [5]).1.audioBuffer i ≠ 5 := by
  refine ⟨rfl, rfl, rfl, rfl, rfl, fun i => ?_⟩
  simp only [AudioEngine.callbackAccumulate, AudioEngine.accumulateSample,
    AudioEngine.initAccum, List.foldl_cons, List.foldl_nil, List.length_cons,
    List.length_nil]
  norm_num [Function.update]
  split_ifs <;> norm_num

/-! ## C8: profanity lookup vs normalization -/

/-- C8 counterexample: `"damn!"` and `"damn"` have the same normalized form,
yet with the lexicon `{"damn"}` the lookup `is_profane` answers `false` for
`"damn!"` and `true` for its normalized form: `is_profane` lower-cases but
does not strip punctuation, so it does not depend only on `normalize(s)`. -/
theorem C8_profane_counterexample :
    LyricsAlignment.normalizeText "damn!".toList = LyricsAlignment.normalizeText "damn".toList ∧
    ProfanityFilter.isProfane ["damn".toList] "damn!".toList = false ∧
    ProfanityFilter.isProfane ["damn".toList]
      (LyricsAlignment.normalizeText "damn!".toList) = true := by
  decide

/-- C8 (amended): `is_profane(s)` depends only on the ASCII lower-casing of
`s` — any two strings equal after lower-casing receive the same answer, for
every loaded lexicon.  (Punctuation is significant to `is_profane` itself;
the engine call sites normalize before the lookup.) -/
theorem C8_profane_lowercase_invariant (lexicon : List (List Char)) (s1 s2 : List Char)
    (h : s1.map asciiToLower = s2.map asciiToLower) :
    ProfanityFilter.isProfane lexicon s1 = ProfanityFilter.isProfane lexicon s2 := by
  unfold ProfanityFilter.isProfane
  simp only [h]

/-- C8 witness: the amended statement applied to `"Damn"` and `"damn"`. -/
theorem C8_profane_witness :
    "Damn".toList.map asciiToLower = "damn".toList.map asciiToLower ∧
    ProfanityFilter.isProfane ["damn".toList] "Damn".toList =
      ProfanityFilter.isProfane ["damn".toList] "damn".toList :=
  ⟨by decide, C8_profane_lowercase_invariant ["damn".toList] _ _ (by decide)⟩

/-! ## C4: the shape of a muted interval -/

/-- C4 counterexample: mute an interval of 8 samples of value 1 in a ring of
16 cells.  The computed fade length is `min 480 (8/4) = 2`, but the engine
mute writes `0` to every sample including the leading fade window — the
read-back does not have the claimed linear fade-out shape (which would leave
the first fade sample at gain `1 - 0/2 = 1`, value `1`). -/
theorem C4_mute_counterexample :
    AudioEngine.muteChannel 16 (fun _ => 1) 0 0 8 0 = 0 ∧
    ¬ AudioEngine.claimedMuteShape (fun _ => 1)
      (AudioEngine.muteChannel 16 (fun _ => 1) 0 0 8) 0 8 := by
  have hzero : AudioEngine.muteChannel 16 (fun _ => 1) 0 0 8 0 = 0 := by
    have h := AudioEngine.muteChannel_covered 16 (fun _ => 1) 0 0 8 0 (le_refl 0) (by omega)
    simpa using h
  refine ⟨hzero, fun h => ?_⟩
  have hfade : 0 < min 480 ((8 - 0) / 4) := by norm_num
  have h1 := h.1 0 hfade
  norm_num at h1
  rw [hzero] at h1
  exact absurd h1 (by norm_num)

/-- C4 (amended): the mute the engine applies to the delay line writes exact
zeros across the entire interval — interior and would-be fade windows alike —
and leaves every cell outside the interval unchanged; reading the interval
back therefore yields zeros everywhere.  (A fading mute exists only in
`CensorshipEngine::muteSamples`, which no engine code path invokes.) -/
theorem C4_mute_zeros (N : ℕ) (buf : Fin 2 → ℕ → ℚ) (cs ss es : ℕ) :
    (∀ (ch : Fin 2) (i : ℕ), ss ≤ i → i < es →
      AudioEngine.applyMute N buf cs ss es ch ((cs + i) % N) = 0) ∧
    (∀ (ch : Fin 2) (idx : ℕ), (∀ i, ss ≤ i → i < es → (cs + i) % N ≠ idx) →
      AudioEngine.applyMute N buf cs ss es ch idx = buf ch idx) :=
  ⟨fun ch i h1 h2 => AudioEngine.muteChannel_covered N (buf ch) cs ss es i h1 h2,
   fun ch idx h => AudioEngine.muteChannel_notCovered N (buf ch) cs ss es idx h⟩

/-- C4 witness: the amended statement applied to the concrete interval of the
counterexample, at an interior sample and at an untouched cell. -/
theorem C4_mute_zeros_witness :
    AudioEngine.applyMute 16 (fun _ _ => 1) 0 0 8 0 ((0 + 3) % 16) = 0 ∧
    AudioEngine.applyMute 16 (fun _ _ => 1) 0 0 8 0 12 = 1 :=
  ⟨(C4_mute_zeros 16 (fun _ _ => 1) 0 0 8).1 0 3 (by omega) (by omega),
   (C4_mute_zeros 16 (fun _ _ => 1) 0 0 8).2 0 12 (by intro i h1 h2; omega)⟩

/-! ## C7: prediction fallback -/

/-- C7: when the recogniser returned no words and the aligner is locked with
lyrics loaded (ready, cursor before the end), `predictNextWords` emits
exactly `min((int)(duration * 3.5), remaining)` lyrics words starting at the
cursor — word `i` spanning `[i * duration/n, (i+1) * duration/n)` at
confidence `0.5` — the last emitted word ending exactly at `duration`, and
advances the cursor by exactly the emitted count. -/
theorem C7_predict_spec (st : LyricsAlignment.AlignerState) (duration : ℚ)
    (hready : LyricsAlignment.isReady st = true)
    (hpos : st.currentPosition < (st.preprocessedLyrics.length : ℤ))
    (hlock : st.locked = true) :
    (LyricsAlignment.predictNextWords st duration).2.length =
      (LyricsAlignment.predictNumWords st duration).toNat ∧
    (LyricsAlignment.predictNextWords st duration).1.currentPosition =
      st.currentPosition + LyricsAlignment.predictNumWords st duration ∧
    (∀ i, ∀ h : i < (LyricsAlignment.predictNextWords st duration).2.length,
      (LyricsAlignment.predictNextWords st duration).2.get ⟨i, h⟩ =
        ⟨(st.preprocessedLyrics.getD (st.currentPosition + (i : ℤ)).toNat default).word,
          (i : ℚ) * (duration / ((LyricsAlignment.predictNumWords st duration : ℤ) : ℚ)),
          (i : ℚ) * (duration / ((LyricsAlignment.predictNumWords st duration : ℤ) : ℚ)) +
            duration / ((LyricsAlignment.predictNumWords st duration : ℤ) : ℚ),
          1/2⟩) ∧
    (∀ hne : (LyricsAlignment.predictNextWords st duration).2 ≠ [],
      ((LyricsAlignment.predictNextWords st duration).2.getLast hne).stop = duration) := by
  have hguard : ¬(¬LyricsAlignment.isReady st = true ∨
      (st.preprocessedLyrics.length : ℤ) ≤ st.currentPosition) := by
    push_neg
    exact ⟨by simp [hready], hpos⟩
  have hr : LyricsAlignment.predictNextWords st duration =
      ({ st with currentPosition :=
          st.currentPosition + LyricsAlignment.predictNumWords st duration },
        (List.range (LyricsAlignment.predictNumWords st duration).toNat).map (fun (i : ℕ) =>
          (⟨(st.preprocessedLyrics.getD (st.currentPosition + (i : ℤ)).toNat default).word,
            (i : ℚ) * (duration / ((LyricsAlignment.predictNumWords st duration : ℤ) : ℚ)),
            (i : ℚ) * (duration / ((LyricsAlignment.predictNumWords st duration : ℤ) : ℚ)) +
              duration / ((LyricsAlignment.predictNumWords st duration : ℤ) : ℚ),
            (1/2 : ℚ)⟩ : LyricsAlignment.WordSegment))) := by
    unfold LyricsAlignment.predictNextWords
    rw [if_neg hguard]
  rw [hr]
  refine ⟨by simp, rfl, fun i h => ?_, fun hne => ?_⟩
  · simp only [List.get_eq_getElem, List.getElem_map, List.getElem_range]
  · have hn0 : 0 < (LyricsAlignment.predictNumWords st duration).toNat := by
      by_contra hz
      apply hne
      have : (LyricsAlignment.predictNumWords st duration).toNat = 0 := by omega
      simp [this]
    rw [List.getLast_eq_getElem]
    simp only [List.getElem_map, List.getElem_range, List.length_map, List.length_range]
    show ((LyricsAlignment.predictNumWords st duration).toNat - 1 : ℕ) *
        (duration / ((LyricsAlignment.predictNumWords st duration : ℤ) : ℚ)) +
        duration / ((LyricsAlignment.predictNumWords st duration : ℤ) : ℚ) = duration
    have hposn : 0 < LyricsAlignment.predictNumWords st duration := by omega
    have hQ : ((LyricsAlignment.predictNumWords st duration : ℤ) : ℚ) ≠ 0 := by
      exact_mod_cast hposn.ne'
    have hcast : (((LyricsAlignment.predictNumWords st duration).toNat : ℕ) : ℚ) =
        ((LyricsAlignment.predictNumWords st duration : ℤ) : ℚ) := by
      have h1 := Int.toNat_of_nonneg (le_of_lt hposn)
      exact_mod_cast congrArg (fun z : ℤ => (z : ℚ)) h1
    have hsub : (((LyricsAlignment.predictNumWords st duration).toNat - 1 : ℕ) : ℚ) =
        ((LyricsAlignment.predictNumWords st duration : ℤ) : ℚ) - 1 := by
      rw [Nat.cast_sub hn0, hcast]
      norm_num
    rw [hsub]
    field_simp
    ring

/-- C7 witness: at cursor 10 of a 20-word lyric with a 2-second chunk the
fallback emits `⌊2 * 3.5⌋ = 7` words and leaves the cursor at 17. -/
theorem C7_predict_witness :
    (LyricsAlignment.predictNextWords predictLyricsState 2).2.length = 7 ∧
    (LyricsAlignment.predictNextWords predictLyricsState 2).1.currentPosition = 17 := by
  have h := C7_predict_spec predictLyricsState 2 (by decide) (by decide) rfl
  have htr : ratTruncInt ((2 : ℚ) * (7/2)) = 7 := by
    unfold ratTruncInt
    rw [if_pos (by norm_num)]
    norm_num
  have hn : LyricsAlignment.predictNumWords predictLyricsState 2 = 7 := by
    unfold LyricsAlignment.predictNumWords
    rw [htr]
    decide
  constructor
  · rw [h.1, hn]; rfl
  · rw [h.2.1, hn]; decide

/-! ## C10: cursor bounds invariant -/

/-- C10: the forced aligner keeps `0 ≤ currentPosition ≤ totalWords` across
`setLyrics`, `reset`, `alignChunk` and `predictNextWords` (the latter for any
non-negative chunk duration — the only call site passes `chunkSeconds = 2`),
and `predictNextWords` returns the empty list whenever the cursor is at or
past the end of the lyrics. -/
theorem C10_cursor_bounds :
    (∀ text : List Char,
      (LyricsAlignment.setLyrics text).currentPosition = 0 ∧
      0 ≤ (LyricsAlignment.setLyrics text).currentPosition ∧
      (LyricsAlignment.setLyrics text).currentPosition ≤
        ((LyricsAlignment.setLyrics text).preprocessedLyrics.length : ℤ)) ∧
    (LyricsAlignment.resetState.currentPosition = 0 ∧
      LyricsAlignment.resetState.preprocessedLyrics.length = 0) ∧
    (∀ (st : LyricsAlignment.AlignerState) (ws : List LyricsAlignment.WordSegment) (T : ℚ),
      0 ≤ st.currentPosition →
      st.currentPosition ≤ (st.preprocessedLyrics.length : ℤ) →
      0 ≤ (LyricsAlignment.alignChunk st ws T).1.currentPosition ∧
      (LyricsAlignment.alignChunk st ws T).1.currentPosition ≤
        (((LyricsAlignment.alignChunk st ws T).1.preprocessedLyrics.length : ℕ) : ℤ)) ∧
    (∀ (st : LyricsAlignment.AlignerState) (d : ℚ),
      0 ≤ d →
      0 ≤ st.currentPosition →
      st.currentPosition ≤ (st.preprocessedLyrics.length : ℤ) →
      0 ≤ (LyricsAlignment.predictNextWords st d).1.currentPosition ∧
      (LyricsAlignment.predictNextWords st d).1.currentPosition ≤
        (((LyricsAlignment.predictNextWords st d).1.preprocessedLyrics.length : ℕ) : ℤ)) ∧
    (∀ (st : LyricsAlignment.AlignerState) (d : ℚ),
      (st.preprocessedLyrics.length : ℤ) ≤ st.currentPosition →
      (LyricsAlignment.predictNextWords st d).2 = []) := by
  refine ⟨fun text => ⟨rfl, by show (0 : ℤ) ≤ 0; omega, ?_⟩, ⟨rfl, rfl⟩,
      fun st ws T h0 h1 => ?_, fun st d hd h0 h1 => ?_, fun st d hend => ?_⟩
  · show (0 : ℤ) ≤ _
    exact Int.natCast_nonneg _
  · simp only [LyricsAlignment.alignChunk]
    split_ifs with g1 g2 g3 b1 b2 b3
    all_goals try exact ⟨h0, h1⟩
    all_goals push_neg at b1
    all_goals dsimp only
    all_goals constructor <;> omega
  · simp only [LyricsAlignment.predictNextWords]
    split_ifs with g1
    · exact ⟨h0, h1⟩
    · push_neg at g1
      dsimp only
      have hnn : 0 ≤ ratTruncInt (d * (7/2)) :=
        ratTruncInt_nonneg (by positivity)
      unfold LyricsAlignment.predictNumWords
      constructor <;> omega
  · simp only [LyricsAlignment.predictNextWords]
    rw [if_pos (Or.inr hend)]

/-- C10 witness: the invariant applied to a concrete aligner state built by
`setLyrics`, and the empty-prediction clause at a cursor past the end. -/
theorem C10_cursor_witness :
    (0 ≤ (LyricsAlignment.alignChunk scenarioLyrics [] 0).1.currentPosition ∧
      (LyricsAlignment.alignChunk scenarioLyrics [] 0).1.currentPosition ≤
        (((LyricsAlignment.alignChunk scenarioLyrics [] 0).1.preprocessedLyrics.length : ℕ) : ℤ)) ∧
    (LyricsAlignment.predictNextWords
      { scenarioLyrics with currentPosition := 9 } 2).2 = [] :=
  ⟨C10_cursor_bounds.2.2.1 scenarioLyrics [] 0 (by decide) (by decide),
   C10_cursor_bounds.2.2.2.2 { scenarioLyrics with currentPosition := 9 } 2 (by decide)⟩

/-! ## C9: timestamp refiner bounds -/

/-- Folding a step that always adds the constant `c` over `List.range n`. -/
theorem foldl_sum_of_step (g : ℚ → ℕ → ℚ) (c : ℚ) :
    ∀ (n : ℕ) (acc : ℚ), (∀ a k, k < n → g a k = a + c) →
      (List.range n).foldl g acc = acc + n * c := by
  intro n
  induction n with
  | zero => intro acc _; simp
  | succ m ih =>
    intro acc h
    rw [List.range_succ, List.foldl_append,
        ih acc (fun a k hk => h a k (Nat.lt_succ_of_lt hk))]
    simp only [List.foldl_cons, List.foldl_nil]
    rw [h _ m (Nat.lt_succ_self m)]
    push_cast
    ring

/-- Folding a step that always increments over `List.range n`. -/
theorem foldl_count_of_step (g : ℕ → ℕ → ℕ) :
    ∀ (n : ℕ) (acc : ℕ), (∀ a k, k < n → g a k = a + 1) →
      (List.range n).foldl g acc = acc + n := by
  intro n
  induction n with
  | zero => intro acc _; simp
  | succ m ih =>
    intro acc h
    rw [List.range_succ, List.foldl_append,
        ih acc (fun a k hk => h a k (Nat.lt_succ_of_lt hk))]
    simp only [List.foldl_cons, List.foldl_nil]
    rw [h _ m (Nat.lt_succ_self m)]
    omega

/-- A fold whose step fixes the accumulator is the identity. -/
theorem foldl_fix {α β : Type} (f : α → β → α) (a : α) :
    ∀ l : List β, (∀ x ∈ l, f a x = a) → l.foldl f a = a := by
  intro l
  induction l with
  | nil => intro _; rfl
  | cons i t ih =>
    intro h
    rw [List.foldl_cons, h i (List.mem_cons_self i t)]
    exact ih (fun x hx => h x (List.mem_cons_of_mem i hx))

namespace TimestampRefiner

/-- `clampDuration` always yields a duration in `(0, MAX_WORD_DURATION]`. -/
theorem clampDuration_bounds (rs re : ℚ) :
    0 < (clampDuration rs re).2 - (clampDuration rs re).1 ∧
      (clampDuration rs re).2 - (clampDuration rs re).1 ≤ 2 := by
  unfold clampDuration
  simp only [MIN_WORD_DURATION, MAX_WORD_DURATION]
  split_ifs with h1 h2 h3
  · constructor <;> linarith
  · constructor <;> linarith
  · constructor <;> linarith
  · push_neg at h1 h3
    constructor <;> linarith

/-- On a buffer where no window passes both thresholds, the speech scan stays
at its initial state. -/
theorem speechScan_silent (sqrtFn : ℚ → ℚ) (audio : List ℚ)
    (hsil : ∀ i : ℤ, ¬(ENERGY_THRESHOLD < calculateEnergy sqrtFn audio i WINDOW_SIZE ∧
      ZC_THRESHOLD < calculateZeroCrossing audio i WINDOW_SIZE))
    (a b : ℤ) : speechScan sqrtFn audio a b = ([], false, 0) := by
  unfold speechScan
  apply foldl_fix
  intro i _
  dsimp only
  rw [if_neg (fun h => hsil i h.1), if_neg (fun h => Bool.false_ne_true h.2)]

/-- On a buffer where no window passes both thresholds, no speech region is
found. -/
theorem energyRegionsOf_silent (sqrtFn : ℚ → ℚ) (audio : List ℚ)
    (hsil : ∀ i : ℤ, ¬(ENERGY_THRESHOLD < calculateEnergy sqrtFn audio i WINDOW_SIZE ∧
      ZC_THRESHOLD < calculateZeroCrossing audio i WINDOW_SIZE))
    (a b : ℤ) : energyRegionsOf sqrtFn audio a b = [] := by
  unfold energyRegionsOf
  rw [speechScan_silent sqrtFn audio hsil a b]
  rfl

end TimestampRefiner

/-- The burst buffer holds 480 samples. -/
theorem refinerBurstAudio_length : refinerBurstAudio.length = 480 := by
  simp [refinerBurstAudio]

/-- The burst buffer alternates `1/2` and `-1/2`. -/
theorem refinerBurstAudio_getD (k : ℕ) (hk : k < 480) :
    refinerBurstAudio.getD k 0 = if k % 2 = 0 then (1/2 : ℚ) else -(1/2) := by
  unfold refinerBurstAudio
  rw [List.getD_eq_getElem?_getD, List.getElem?_map, List.getElem?_range hk]
  rfl

/-- Every burst sample has square `1/4`. -/
theorem refinerBurstAudio_sq (k : ℕ) (hk : k < 480) :
    refinerBurstAudio.getD k 0 * refinerBurstAudio.getD k 0 = 1/4 := by
  rw [refinerBurstAudio_getD k hk]
  split_ifs <;> norm_num

namespace TimestampRefiner

/-- `ratSqrt` agrees with the real square root at `0`. -/
theorem ratSqrt_zero : ratSqrt 0 = 0 := by
  unfold ratSqrt
  norm_num

/-- `ratSqrt` agrees with the real square root at `1/4`. -/
theorem ratSqrt_quarter : ratSqrt (1/4) = 1/2 := by
  have h : (1/4 : ℚ) = mkRat 1 4 := by
    rw [Rat.mkRat_eq_div]
    norm_num
  rw [h]
  unfold ratSqrt
  have h1 : (mkRat 1 4).num = 1 := by decide
  have h2 : (mkRat 1 4).den = 4 := by decide
  rw [h1, h2]
  have h3 : Nat.sqrt ((1 : ℤ).toNat * 4) = 2 := by
    have h4 : (1 : ℤ).toNat * 4 = 2 * 2 := by decide
    rw [h4, Nat.sqrt_eq]
  rw [h3]
  norm_num

/-- The energy of the single analysis window of the burst buffer. -/
theorem refinerBurst_energy :
    calculateEnergy ratSqrt refinerBurstAudio 0 WINDOW_SIZE = 1/2 := by
  unfold calculateEnergy WINDOW_SIZE
  rw [if_neg (by norm_num [refinerBurstAudio_length])]
  have hs : (List.range (480 : ℤ).toNat).foldl
      (fun (acc : ℚ) (k : ℕ) =>
        acc + refinerBurstAudio.getD ((0 : ℤ) + (k : ℤ)).toNat 0 *
          refinerBurstAudio.getD ((0 : ℤ) + (k : ℤ)).toNat 0) 0
      = 0 + ((480 : ℤ).toNat : ℚ) * (1/4) := by
    apply foldl_sum_of_step
    intro a k hk
    have h0 : ((0 : ℤ) + (k : ℤ)).toNat = k := by omega
    rw [h0, refinerBurstAudio_sq k (by omega)]
  dsimp only
  rw [hs]
  have h480 : (480 : ℤ).toNat = 480 := rfl
  rw [h480]
  have harg : ((0 : ℚ) + ((480 : ℕ) : ℚ) * (1/4)) / ((480 : ℤ) : ℚ) = 1/4 := by
    norm_num
  rw [harg]
  exact ratSqrt_quarter

/-- The zero-crossing rate of the single analysis window of the burst
buffer. -/
theorem refinerBurst_zc :
    calculateZeroCrossing refinerBurstAudio 0 WINDOW_SIZE = 479/480 := by
  unfold calculateZeroCrossing WINDOW_SIZE
  rw [if_neg (by norm_num [refinerBurstAudio_length])]
  have hcnt : (List.range ((480 : ℤ).toNat - 1)).foldl
      (fun (acc : ℕ) (k : ℕ) =>
        if (0 ≤ refinerBurstAudio.getD ((0 : ℤ) + 1 + (k : ℤ)).toNat 0 ∧
              refinerBurstAudio.getD (((0 : ℤ) + 1 + (k : ℤ)) - 1).toNat 0 < 0) ∨
            (refinerBurstAudio.getD ((0 : ℤ) + 1 + (k : ℤ)).toNat 0 < 0 ∧
              0 ≤ refinerBurstAudio.getD (((0 : ℤ) + 1 + (k : ℤ)) - 1).toNat 0)
          then acc + 1 else acc) 0
      = 0 + ((480 : ℤ).toNat - 1) := by
    apply foldl_count_of_step
    intro a k hk
    have ha : ((0 : ℤ) + 1 + (k : ℤ)).toNat = k + 1 := by omega
    have hb : (((0 : ℤ) + 1 + (k : ℤ)) - 1).toNat = k := by omega
    rw [ha, hb, refinerBurstAudio_getD (k + 1) (by omega),
        refinerBurstAudio_getD k (by omega)]
    by_cases h2 : k % 2 = 0
    · have hno : ¬((k + 1) % 2 = 0) := by omega
      rw [if_neg hno, if_pos h2]
      exact if_pos (Or.inr ⟨by norm_num, by norm_num⟩)
    · have hyes : (k + 1) % 2 = 0 := by omega
      rw [if_pos hyes, if_neg h2]
      exact if_pos (Or.inl ⟨by norm_num, by norm_num⟩)
  dsimp only
  rw [hcnt]
  have h480 : (480 : ℤ).toNat = 480 := rfl
  rw [h480]
  norm_num

end TimestampRefiner

namespace TimestampRefiner

/-- The single-window scan of the burst buffer opens a region at `0` and is
still in speech at the end. -/
theorem refinerBurst_scan :
    speechScan ratSqrt refinerBurstAudio 0 480 = ([], true, 0) := by
  unfold speechScan
  have hsr : strideRange 0 480 WINDOW_SIZE = [0] := by decide
  rw [hsr]
  simp only [List.foldl_cons, List.foldl_nil]
  have he : ENERGY_THRESHOLD < calculateEnergy ratSqrt refinerBurstAudio 0 WINDOW_SIZE := by
    rw [refinerBurst_energy]
    norm_num [ENERGY_THRESHOLD]
  have hz : ZC_THRESHOLD < calculateZeroCrossing refinerBurstAudio 0 WINDOW_SIZE := by
    rw [refinerBurst_zc]
    norm_num [ZC_THRESHOLD]
  have hcond : (ENERGY_THRESHOLD < calculateEnergy ratSqrt refinerBurstAudio 0 WINDOW_SIZE ∧
      ZC_THRESHOLD < calculateZeroCrossing refinerBurstAudio 0 WINDOW_SIZE) ∧ True :=
    ⟨⟨he, hz⟩, trivial⟩
  exact if_pos hcond

/-- The selection tail of `searchForSpeech` either returns the recogniser
estimate (no region) or a clamped interval of positive duration of at most
2 s. -/
theorem pickRegionAndClamp_bounds (sqrtFn : ℚ → ℚ) (audio : List ℚ)
    (wc SR : ℤ) (ws we : ℚ) (regions : List (ℤ × ℤ)) :
    pickRegionAndClamp sqrtFn audio wc SR ws we regions = (ws, we) ∨
      (0 < (pickRegionAndClamp sqrtFn audio wc SR ws we regions).2 -
          (pickRegionAndClamp sqrtFn audio wc SR ws we regions).1 ∧
        (pickRegionAndClamp sqrtFn audio wc SR ws we regions).2 -
          (pickRegionAndClamp sqrtFn audio wc SR ws we regions).1 ≤ 2) := by
  cases regions with
  | nil => left; rfl
  | cons r0 rest =>
    right
    exact clampDuration_bounds _ _

/-- The burst buffer produces the single speech region `[0, 480)`. -/
theorem refinerBurst_regions :
    energyRegionsOf ratSqrt refinerBurstAudio 0 480 = [(0, 480)] := by
  unfold energyRegionsOf
  rw [refinerBurst_scan]
  rfl

end TimestampRefiner

/-- C9: for every word and every audio buffer, `searchForSpeech` either
returns the recogniser estimate unchanged — which it always does when no
analysis window passes both the energy and the zero-crossing threshold — or
returns a refined interval whose duration is positive and at most 2 s.  (The
50 ms lower bound of the original claim does not hold, see the
counterexample: the refiner applies the minimum-duration floor only when the
refined end does not exceed the refined start.) -/
theorem C9_refiner_bounds (sqrtFn : ℚ → ℚ) (audio : List ℚ) (ws we : ℚ) (SR : ℤ) :
    (TimestampRefiner.searchForSpeech sqrtFn audio ws we SR = (ws, we) ∨
      (0 < (TimestampRefiner.searchForSpeech sqrtFn audio ws we SR).2 -
          (TimestampRefiner.searchForSpeech sqrtFn audio ws we SR).1 ∧
        (TimestampRefiner.searchForSpeech sqrtFn audio ws we SR).2 -
          (TimestampRefiner.searchForSpeech sqrtFn audio ws we SR).1 ≤ 2)) ∧
    ((∀ i : ℤ, ¬(TimestampRefiner.ENERGY_THRESHOLD <
          TimestampRefiner.calculateEnergy sqrtFn audio i TimestampRefiner.WINDOW_SIZE ∧
        TimestampRefiner.ZC_THRESHOLD <
          TimestampRefiner.calculateZeroCrossing audio i TimestampRefiner.WINDOW_SIZE)) →
      TimestampRefiner.searchForSpeech sqrtFn audio ws we SR = (ws, we)) := by
  constructor
  · simp only [TimestampRefiner.searchForSpeech]
    exact TimestampRefiner.pickRegionAndClamp_bounds _ _ _ _ _ _ _
  · intro hsil
    simp only [TimestampRefiner.searchForSpeech]
    rw [TimestampRefiner.energyRegionsOf_silent sqrtFn audio hsil]
    rfl

/-- C9 counterexample: on the 480-sample burst buffer, a recogniser estimate
of `(0.3 s, 0.5 s)` at 48 kHz is refined to `(0 s, 0.01 s)` — a changed
interval of duration 10 ms, below the claimed 50 ms floor.  The last two
conjuncts record that the supplied `sqrtFn` agrees with the real square root
on the two values every reached energy call receives. -/
theorem C9_refiner_counterexample :
    TimestampRefiner.searchForSpeech TimestampRefiner.ratSqrt refinerBurstAudio
        (3/10) (1/2) 48000 = (0, 1/100) ∧
    ((0 : ℚ), (1/100 : ℚ)) ≠ ((3/10 : ℚ), (1/2 : ℚ)) ∧
    ¬ (TimestampRefiner.MIN_WORD_DURATION ≤ (1/100 : ℚ) - 0) ∧
    TimestampRefiner.ratSqrt 0 = 0 ∧
    TimestampRefiner.ratSqrt (1/4) = 1/2 := by
  refine ⟨?_, by norm_num [Prod.ext_iff],
    by norm_num [TimestampRefiner.MIN_WORD_DURATION],
    TimestampRefiner.ratSqrt_zero, TimestampRefiner.ratSqrt_quarter⟩
  have h1 : ratTruncInt (14400 : ℚ) = 14400 := by
    unfold ratTruncInt
    rw [if_pos (by norm_num)]
    norm_num
  have h2 : ratTruncInt (24000 : ℚ) = 24000 := by
    unfold ratTruncInt
    rw [if_pos (by norm_num)]
    norm_num
  have hfb1 : TimestampRefiner.findBestBoundary TimestampRefiner.ratSqrt refinerBurstAudio
      0 1920 48000 true = 0 := by
    unfold TimestampRefiner.findBestBoundary
    norm_num [refinerBurstAudio_length, TimestampRefiner.WINDOW_SIZE,
      TimestampRefiner.strideRange, show (119 : ℤ).toNat = 119 from rfl,
      show (120 : ℤ).toNat = 120 from rfl, show 119 / 120 = 0 from rfl]
  have hfb2 : TimestampRefiner.findBestBoundary TimestampRefiner.ratSqrt refinerBurstAudio
      480 1920 48000 false = 1/100 := by
    unfold TimestampRefiner.findBestBoundary
    norm_num [refinerBurstAudio_length, TimestampRefiner.WINDOW_SIZE,
      TimestampRefiner.strideRange, show (119 : ℤ).toNat = 119 from rfl,
      show (120 : ℤ).toNat = 120 from rfl, show 119 / 120 = 0 from rfl]
  have habs : |(-239 : ℤ)| = 239 := by decide
  simp only [TimestampRefiner.searchForSpeech]
  norm_num [refinerBurstAudio_length, h1, h2, TimestampRefiner.SEARCH_RADIUS]
  rw [TimestampRefiner.refinerBurst_regions]
  simp only [TimestampRefiner.pickRegionAndClamp]
  norm_num [TimestampRefiner.INT_MAX, TimestampRefiner.WINDOW_SIZE, List.foldl_cons,
    List.foldl_nil, habs, hfb1, hfb2, TimestampRefiner.clampDuration,
    TimestampRefiner.MIN_WORD_DURATION, TimestampRefiner.MAX_WORD_DURATION]

/-- C9 witness: on the empty buffer every analysis window is out of range, so
no window passes the thresholds and the silence clause of `C9_refiner_bounds`
returns the recogniser estimate unchanged. -/
theorem C9_refiner_witness :
    TimestampRefiner.searchForSpeech TimestampRefiner.ratSqrt [] (3/10) (1/2) 48000
      = (3/10, 1/2) := by
  apply (C9_refiner_bounds TimestampRefiner.ratSqrt [] (3/10) (1/2) 48000).2
  intro i h
  have hg : i < 0 ∨ ((([] : List ℚ).length : ℤ) < i + TimestampRefiner.WINDOW_SIZE) := by
    simp only [List.length_nil, TimestampRefiner.WINDOW_SIZE]
    push_cast
    omega
  have he : TimestampRefiner.calculateEnergy TimestampRefiner.ratSqrt []
      i TimestampRefiner.WINDOW_SIZE = 0 := by
    unfold TimestampRefiner.calculateEnergy
    rw [if_pos hg]
  rw [he] at h
  exact absurd h.1 (by norm_num [TimestampRefiner.ENERGY_THRESHOLD])

/-! ## C6: aligner lock progression -/

/-- `filterMap` of an everywhere-`some` function is a `map`. -/
theorem filterMap_some_eq_map {α β : Type} (f : α → Option β) (g : α → β) :
    ∀ l : List α, (∀ x ∈ l, f x = some (g x)) → l.filterMap f = l.map g := by
  intro l
  induction l with
  | nil => intro _; rfl
  | cons a t ih =>
    intro h
    simp only [List.filterMap_cons, h a (List.mem_cons_self a t), List.map_cons]
    rw [ih (fun x hx => h x (List.mem_cons_of_mem a hx))]

namespace LyricsAlignment

/-- `calculateSimilarity` never exceeds `1`. -/
theorem calculateSimilarity_le_one (t1 t2 : List Char) :
    calculateSimilarity t1 t2 ≤ 1 := by
  simp only [calculateSimilarity]
  split_ifs with h1 h2 h3
  · exact le_refl 1
  · norm_num
  · exact le_refl 1
  · have h := div_nonneg
      (Nat.cast_nonneg (editDistance (normalizeText t1) (normalizeText t2)) : (0 : ℚ) ≤ _)
      (le_max_of_le_left (Nat.cast_nonneg (normalizeText t1).length) :
        (0 : ℚ) ≤ max ((normalizeText t1).length : ℚ) ((normalizeText t2).length : ℚ))
    linarith

/-- Texts with the same normalized form score exactly `1`. -/
theorem calculateSimilarity_eq_one (t1 t2 : List Char)
    (h : normalizeText t1 = normalizeText t2) : calculateSimilarity t1 t2 = 1 := by
  simp only [calculateSimilarity]
  by_cases hA : normalizeText t1 = [] ∧ normalizeText t2 = []
  · rw [if_pos hA]
  · rw [if_neg hA]
    have hB : ¬(normalizeText t1 = [] ∨ normalizeText t2 = []) := by
      intro hc
      rcases hc with hc | hc
      · exact hA ⟨hc, by rw [← h]; exact hc⟩
      · exact hA ⟨by rw [h]; exact hc, hc⟩
    rw [if_neg hB, if_pos h]

/-- Non-empty texts with different normalized forms and a positive edit
distance score strictly below `1`. -/
theorem calculateSimilarity_lt_one (t1 t2 : List Char)
    (h1 : normalizeText t1 ≠ []) (h2 : normalizeText t2 ≠ [])
    (hne : normalizeText t1 ≠ normalizeText t2)
    (hd : 0 < editDistance (normalizeText t1) (normalizeText t2)) :
    calculateSimilarity t1 t2 < 1 := by
  simp only [calculateSimilarity]
  have hA : ¬(normalizeText t1 = [] ∧ normalizeText t2 = []) := fun hc => h1 hc.1
  have hB : ¬(normalizeText t1 = [] ∨ normalizeText t2 = []) := fun hc => hc.elim h1 h2
  rw [if_neg hA, if_neg hB, if_neg hne]
  have hlen : (0 : ℚ) < ((normalizeText t1).length : ℚ) := by
    exact_mod_cast List.length_pos.mpr h1
  have hmaxq : (0 : ℚ) < max ((normalizeText t1).length : ℚ) ((normalizeText t2).length : ℚ) :=
    lt_max_iff.mpr (Or.inl hlen)
  have hq : 0 < (editDistance (normalizeText t1) (normalizeText t2) : ℚ) /
      max ((normalizeText t1).length : ℚ) ((normalizeText t2).length : ℚ) :=
    div_pos (by exact_mod_cast hd) hmaxq
  linarith

/-- A window score never exceeds `1`. -/
theorem windowScoreOf_le_one (lyrics : List LyricsWord) (ws : List WordSegment) (pos : ℤ) :
    windowScoreOf lyrics ws pos ≤ 1 := by
  unfold windowScoreOf
  exact calculateSimilarity_le_one _ _

/-- The best-position fold keeps a best score of `1` unchanged when every
score is at most `1`. -/
theorem foldl_best_keep (F : ℤ → ℚ) (hle : ∀ p, F p ≤ 1) :
    ∀ (l : List ℤ) (b : ℤ × ℚ), b.2 = 1 →
      l.foldl (fun (best : ℤ × ℚ) pos => if best.2 < F pos then (pos, F pos) else best) b = b := by
  intro l
  induction l with
  | nil => intro b _; rfl
  | cons p t ih =>
    intro b hb
    rw [List.foldl_cons]
    have hcond : ¬(b.2 < F p) := by
      rw [hb]
      exact not_lt.mpr (hle p)
    rw [if_neg hcond]
    exact ih b hb

/-- The best-position fold keeps the best score below `1` when every score of
the scanned positions is below `1`. -/
theorem foldl_best_lt (F : ℤ → ℚ) :
    ∀ (l : List ℤ) (b : ℤ × ℚ), (∀ p ∈ l, F p < 1) → b.2 < 1 →
      (l.foldl (fun (best : ℤ × ℚ) pos => if best.2 < F pos then (pos, F pos) else best) b).2
        < 1 := by
  intro l
  induction l with
  | nil => intro b _ hb; exact hb
  | cons p t ih =>
    intro b h hb
    rw [List.foldl_cons]
    apply ih _ (fun q hq => h q (List.mem_cons_of_mem p hq))
    dsimp only
    by_cases hc : b.2 < F p
    · rw [if_pos hc]
      exact h p (List.mem_cons_self p t)
    · rw [if_neg hc]
      exact hb

/-- The best-position fold returns the first position scoring `1` when every
earlier position scores below `1`, the initial best is below `1`, and no
score exceeds `1`. -/
theorem foldl_best_first_one (F : ℤ → ℚ) (hle : ∀ p, F p ≤ 1) :
    ∀ (l1 : List ℤ) (p : ℤ) (l2 : List ℤ) (b : ℤ × ℚ),
      (∀ q ∈ l1, F q < 1) → b.2 < 1 → F p = 1 →
      (l1 ++ p :: l2).foldl
        (fun (best : ℤ × ℚ) pos => if best.2 < F pos then (pos, F pos) else best) b = (p, 1) := by
  intro l1
  induction l1 with
  | nil =>
    intro p l2 b _ hb hp
    rw [List.nil_append, List.foldl_cons]
    have h1 : (if b.2 < F p then (p, F p) else b) = (p, 1) := by
      rw [hp, if_pos hb]
    rw [h1]
    exact foldl_best_keep F hle l2 (p, 1) rfl
  | cons q t ih =>
    intro p l2 b h hb hp
    rw [List.cons_append, List.foldl_cons]
    apply ih p l2 _ (fun r hr => h r (List.mem_cons_of_mem q hr)) _ hp
    dsimp only
    by_cases hc : b.2 < F q
    · rw [if_pos hc]
      exact h q (List.mem_cons_self q t)
    · rw [if_neg hc]
      exact hb

end LyricsAlignment

namespace LyricsAlignment

/-- When every mapped index is in range, `mapTimestamps` emits exactly
`lyricsCount` segments: the lyrics words from `lyricsStart` on, a uniform
split of the chunk time span, and confidence `0.95` times the mean
transcribed confidence. -/
theorem mapTimestamps_full (lyrics : List LyricsWord) (ls lc : ℤ)
    (ws : List WordSegment) (h1 : ws ≠ []) (h2 : lc ≠ 0)
    (h3 : ∀ i : ℕ, i < lc.toNat → ls + (i : ℤ) < (lyrics.length : ℤ)) :
    mapTimestamps lyrics ls lc ws = (List.range lc.toNat).map (fun (i : ℕ) =>
      ⟨(lyrics.getD (ls + (i : ℤ)).toNat default).word,
        (ws.headD default).start +
          (i : ℚ) * (((ws.getLastD default).stop - (ws.headD default).start) / (lc : ℚ)),
        (ws.headD default).start +
          (i : ℚ) * (((ws.getLastD default).stop - (ws.headD default).start) / (lc : ℚ)) +
          ((ws.getLastD default).stop - (ws.headD default).start) / (lc : ℚ),
        (ws.foldl (fun a w => a + w.confidence) 0) / (ws.length : ℚ) * (19/20)⟩) := by
  simp only [mapTimestamps]
  have hg : ¬(ws = [] ∨ lc = 0) := fun hc => hc.elim h1 h2
  rw [if_neg hg]
  apply filterMap_some_eq_map
  intro i hi
  rw [if_pos (h3 i (List.mem_range.mp hi))]

/-- When the best window scores at least `0.80`, `alignChunk` increments the
consecutive-match count, locks once it reaches `2`, maps the chunk span onto
the matched lyrics words, and advances the cursor to the match position plus
the (range-clipped) word count. -/
theorem alignChunk_highScore (st : AlignerState) (ws : List WordSegment) (T : ℚ)
    (h1 : st.initialized = true) (h2 : st.preprocessedLyrics ≠ [])
    (h3 : ws ≠ []) (h4 : isNonLyricalContent ws = false)
    (h5 : 0 ≤ (findBestStartPosition st.preprocessedLyrics ws
      (searchRangeOf st T).1 (searchRangeOf st T).2).1)
    (h6 : (4/5 : ℚ) ≤ (findBestStartPosition st.preprocessedLyrics ws
      (searchRangeOf st T).1 (searchRangeOf st T).2).2) :
    alignChunk st ws T =
      ({ st with
          locked := if 2 ≤ (jumpAdjusted st T).2 + 1 then true else (jumpAdjusted st T).1,
          consecutiveMatches := (jumpAdjusted st T).2 + 1,
          currentPosition := (findBestStartPosition st.preprocessedLyrics ws
              (searchRangeOf st T).1 (searchRangeOf st T).2).1 +
            min (ws.length : ℤ) ((st.preprocessedLyrics.length : ℤ) -
              (findBestStartPosition st.preprocessedLyrics ws
                (searchRangeOf st T).1 (searchRangeOf st T).2).1) },
        mapTimestamps st.preprocessedLyrics
          (findBestStartPosition st.preprocessedLyrics ws
            (searchRangeOf st T).1 (searchRangeOf st T).2).1
          (min (ws.length : ℤ) ((st.preprocessedLyrics.length : ℤ) -
            (findBestStartPosition st.preprocessedLyrics ws
              (searchRangeOf st T).1 (searchRangeOf st T).2).1)) ws) := by
  simp only [alignChunk]
  have hg1 : ¬(¬(st.initialized = true) ∨ st.preprocessedLyrics = []) :=
    fun hc => hc.elim (fun a => a h1) h2
  have hg3 : ¬(isNonLyricalContent ws = true) := by
    rw [h4]
    exact Bool.false_ne_true
  rw [if_neg hg1, if_neg h3, if_neg hg3, if_neg (not_lt.mpr h5), if_pos h6]

end LyricsAlignment

/-- Chunk 1 scores `1` at lyrics position `0` (`the quick`). -/
theorem scenarioScore1 :
    LyricsAlignment.windowScoreOf scenarioLyrics.preprocessedLyrics scenarioChunk1 0 = 1 := by
  unfold LyricsAlignment.windowScoreOf
  exact LyricsAlignment.calculateSimilarity_eq_one _ _ (by decide)

/-- Chunk 1 matches at position `0` with score `1`. -/
theorem scenarioFind1 :
    LyricsAlignment.findBestStartPosition scenarioLyrics.preprocessedLyrics
      scenarioChunk1 0 9 = (0, 1) := by
  simp only [LyricsAlignment.findBestStartPosition]
  have hir : LyricsAlignment.intRange 0
      (min 9 (scenarioLyrics.preprocessedLyrics.length : ℤ)) =
      [] ++ (0 : ℤ) :: [1, 2, 3, 4, 5, 6, 7, 8] := by decide
  rw [hir]
  exact LyricsAlignment.foldl_best_first_one
    (LyricsAlignment.windowScoreOf scenarioLyrics.preprocessedLyrics scenarioChunk1)
    (LyricsAlignment.windowScoreOf_le_one _ _) [] 0 [1, 2, 3, 4, 5, 6, 7, 8] (-1, 0)
    (fun q hq => absurd hq (List.not_mem_nil q)) (by norm_num) scenarioScore1

/-- At `absoluteTime = 0` the jump check leaves lock and match count
unchanged. -/
theorem scenarioJump1 : LyricsAlignment.jumpAdjusted scenarioLyrics 0 = (false, 0) := by
  simp only [LyricsAlignment.jumpAdjusted]
  have hc : ¬((0 : ℚ) < 0 ∧
      20 < |LyricsAlignment.estimatedPositionOf scenarioLyrics 0 -
        scenarioLyrics.currentPosition| ∧ scenarioLyrics.locked = true) :=
    fun h => absurd h.1 (by norm_num)
  rw [if_neg hc]
  rfl

/-- At `absoluteTime = 0` the position estimate falls back to the cursor. -/
theorem scenarioEst1 : LyricsAlignment.estimatedPositionOf scenarioLyrics 0 = 0 := by
  simp only [LyricsAlignment.estimatedPositionOf]
  have hc : ¬((0 : ℚ) < 0) := by norm_num
  rw [if_neg hc]
  rfl

/-- The first chunk searches lyric positions `[0, 9)`. -/
theorem scenarioRange1 : LyricsAlignment.searchRangeOf scenarioLyrics 0 = (0, 9) := by
  simp only [LyricsAlignment.searchRangeOf]
  rw [scenarioJump1, scenarioEst1]
  decide

/-- After chunk 1 the cursor is at `2` with one consecutive match and no
lock. -/
theorem scenarioStep1 : scenarioState1 = scenarioMid1 := by
  show (LyricsAlignment.alignChunk scenarioLyrics scenarioChunk1 0).1 = _
  have h5 : 0 ≤ (LyricsAlignment.findBestStartPosition scenarioLyrics.preprocessedLyrics
      scenarioChunk1 (LyricsAlignment.searchRangeOf scenarioLyrics 0).1
      (LyricsAlignment.searchRangeOf scenarioLyrics 0).2).1 := by
    rw [scenarioRange1]
    dsimp only
    rw [scenarioFind1]
  have h6 : (4/5 : ℚ) ≤ (LyricsAlignment.findBestStartPosition scenarioLyrics.preprocessedLyrics
      scenarioChunk1 (LyricsAlignment.searchRangeOf scenarioLyrics 0).1
      (LyricsAlignment.searchRangeOf scenarioLyrics 0).2).2 := by
    rw [scenarioRange1]
    dsimp only
    rw [scenarioFind1]
    norm_num
  rw [LyricsAlignment.alignChunk_highScore scenarioLyrics scenarioChunk1 0
    (by decide) (by decide) (by decide) (by decide) h5 h6]
  rw [scenarioJump1, scenarioRange1]
  dsimp only
  rw [scenarioFind1]
  decide


set_option maxRecDepth 8192 in
/-- Chunk 2 (`brown fox`) scores below `1` at position `0`. -/
theorem scenarioScore2a :
    LyricsAlignment.windowScoreOf scenarioMid1.preprocessedLyrics scenarioChunk2 0 < 1 := by
  unfold LyricsAlignment.windowScoreOf
  exact LyricsAlignment.calculateSimilarity_lt_one _ _
    (by decide) (by decide) (by decide) (by decide)

set_option maxRecDepth 8192 in
/-- Chunk 2 scores below `1` at position `1`. -/
theorem scenarioScore2b :
    LyricsAlignment.windowScoreOf scenarioMid1.preprocessedLyrics scenarioChunk2 1 < 1 := by
  unfold LyricsAlignment.windowScoreOf
  exact LyricsAlignment.calculateSimilarity_lt_one _ _
    (by decide) (by decide) (by decide) (by decide)

set_option maxRecDepth 8192 in
/-- Chunk 2 scores `1` at position `2`. -/
theorem scenarioScore2c :
    LyricsAlignment.windowScoreOf scenarioMid1.preprocessedLyrics scenarioChunk2 2 = 1 := by
  unfold LyricsAlignment.windowScoreOf
  exact LyricsAlignment.calculateSimilarity_eq_one _ _ (by decide)

set_option maxRecDepth 8192 in
/-- Chunk 2 matches first at position `2` with score `1`. -/
theorem scenarioFind2 :
    LyricsAlignment.findBestStartPosition scenarioMid1.preprocessedLyrics
      scenarioChunk2 0 9 = (2, 1) := by
  simp only [LyricsAlignment.findBestStartPosition]
  have hir : LyricsAlignment.intRange 0
      (min 9 (scenarioMid1.preprocessedLyrics.length : ℤ)) =
      [0, 1] ++ (2 : ℤ) :: [3, 4, 5, 6, 7, 8] := by decide
  rw [hir]
  refine LyricsAlignment.foldl_best_first_one
    (LyricsAlignment.windowScoreOf scenarioMid1.preprocessedLyrics scenarioChunk2)
    (LyricsAlignment.windowScoreOf_le_one _ _) [0, 1] 2 [3, 4, 5, 6, 7, 8] (-1, 0)
    ?_ (by norm_num) scenarioScore2c
  intro q hq
  rcases List.mem_cons.mp hq with h | h
  · rw [h]
    exact scenarioScore2a
  · rw [List.mem_singleton.mp h]
    exact scenarioScore2b

/-- After one 2-second chunk the time estimate points at word `7`. -/
theorem scenarioEst2 : LyricsAlignment.estimatedPositionOf scenarioMid1 2 = 7 := by
  simp only [LyricsAlignment.estimatedPositionOf]
  rw [if_pos (by norm_num : (0 : ℚ) < 2)]
  unfold ratTruncInt
  rw [if_pos (by norm_num : (0 : ℚ) ≤ 2 * (7/2))]
  norm_num

/-- The unlocked state after chunk 1 keeps lock and count at chunk 2. -/
theorem scenarioJump2 : LyricsAlignment.jumpAdjusted scenarioMid1 2 = (false, 1) := by
  simp only [LyricsAlignment.jumpAdjusted]
  have hc : ¬((0 : ℚ) < 2 ∧
      20 < |LyricsAlignment.estimatedPositionOf scenarioMid1 2 -
        scenarioMid1.currentPosition| ∧ scenarioMid1.locked = true) :=
    fun h => Bool.false_ne_true h.2.2
  rw [if_neg hc]
  rfl

/-- The second chunk still searches lyric positions `[0, 9)`. -/
theorem scenarioRange2 : LyricsAlignment.searchRangeOf scenarioMid1 2 = (0, 9) := by
  simp only [LyricsAlignment.searchRangeOf]
  rw [scenarioJump2, scenarioEst2]
  decide

set_option maxRecDepth 8192 in
/-- After chunk 2 the aligner is locked with the cursor at `4`. -/
theorem scenarioStep2 : scenarioState2 = scenarioMid2 := by
  show (LyricsAlignment.alignChunk scenarioState1 scenarioChunk2 2).1 = _
  rw [scenarioStep1]
  have h5 : 0 ≤ (LyricsAlignment.findBestStartPosition scenarioMid1.preprocessedLyrics
      scenarioChunk2 (LyricsAlignment.searchRangeOf scenarioMid1 2).1
      (LyricsAlignment.searchRangeOf scenarioMid1 2).2).1 := by
    rw [scenarioRange2]
    dsimp only
    rw [scenarioFind2]
    decide
  have h6 : (4/5 : ℚ) ≤ (LyricsAlignment.findBestStartPosition scenarioMid1.preprocessedLyrics
      scenarioChunk2 (LyricsAlignment.searchRangeOf scenarioMid1 2).1
      (LyricsAlignment.searchRangeOf scenarioMid1 2).2).2 := by
    rw [scenarioRange2]
    dsimp only
    rw [scenarioFind2]
    norm_num
  rw [LyricsAlignment.alignChunk_highScore scenarioMid1 scenarioChunk2 2
    (by decide) (by decide) (by decide) (by decide) h5 h6]
  rw [scenarioJump2, scenarioRange2]
  dsimp only
  rw [scenarioFind2]
  decide

set_option maxRecDepth 8192 in
/-- Chunk 3 (`jumps over`) scores `1` at position `4`. -/
theorem scenarioScore3 :
    LyricsAlignment.windowScoreOf scenarioMid2.preprocessedLyrics scenarioChunk3 4 = 1 := by
  unfold LyricsAlignment.windowScoreOf
  exact LyricsAlignment.calculateSimilarity_eq_one _ _ (by decide)

set_option maxRecDepth 8192 in
/-- Chunk 3 matches at the first scanned position `4` with score `1`. -/
theorem scenarioFind3 :
    LyricsAlignment.findBestStartPosition scenarioMid2.preprocessedLyrics
      scenarioChunk3 4 9 = (4, 1) := by
  simp only [LyricsAlignment.findBestStartPosition]
  have hir : LyricsAlignment.intRange 4
      (min 9 (scenarioMid2.preprocessedLyrics.length : ℤ)) =
      [] ++ (4 : ℤ) :: [5, 6, 7, 8] := by decide
  rw [hir]
  exact LyricsAlignment.foldl_best_first_one
    (LyricsAlignment.windowScoreOf scenarioMid2.preprocessedLyrics scenarioChunk3)
    (LyricsAlignment.windowScoreOf_le_one _ _) [] 4 [5, 6, 7, 8] (-1, 0)
    (fun q hq => absurd hq (List.not_mem_nil q)) (by norm_num) scenarioScore3

/-- After two 2-second chunks the time estimate points at word `14`. -/
theorem scenarioEst3 : LyricsAlignment.estimatedPositionOf scenarioMid2 4 = 14 := by
  simp only [LyricsAlignment.estimatedPositionOf]
  rw [if_pos (by norm_num : (0 : ℚ) < 4)]
  unfold ratTruncInt
  rw [if_pos (by norm_num : (0 : ℚ) ≤ 4 * (7/2))]
  norm_num

/-- The locked state survives chunk 3 (the estimate is only 10 words
ahead). -/
theorem scenarioJump3 : LyricsAlignment.jumpAdjusted scenarioMid2 4 = (true, 2) := by
  simp only [LyricsAlignment.jumpAdjusted]
  have hc : ¬((0 : ℚ) < 4 ∧
      20 < |LyricsAlignment.estimatedPositionOf scenarioMid2 4 -
        scenarioMid2.currentPosition| ∧ scenarioMid2.locked = true) := by
    intro h
    have h2 := h.2.1
    rw [scenarioEst3] at h2
    exact absurd h2 (by decide)
  rw [if_neg hc]
  rfl

/-- The locked third chunk searches the next words `[4, 9)`. -/
theorem scenarioRange3 : LyricsAlignment.searchRangeOf scenarioMid2 4 = (4, 9) := by
  simp only [LyricsAlignment.searchRangeOf]
  rw [scenarioJump3, scenarioEst3]
  decide

set_option maxRecDepth 8192 in
/-- After chunk 3 the aligner remains locked with the cursor at `6`. -/
theorem scenarioStep3 : scenarioState3 = scenarioMid3 := by
  show (LyricsAlignment.alignChunk scenarioState2 scenarioChunk3 4).1 = _
  rw [scenarioStep2]
  have h5 : 0 ≤ (LyricsAlignment.findBestStartPosition scenarioMid2.preprocessedLyrics
      scenarioChunk3 (LyricsAlignment.searchRangeOf scenarioMid2 4).1
      (LyricsAlignment.searchRangeOf scenarioMid2 4).2).1 := by
    rw [scenarioRange3]
    dsimp only
    rw [scenarioFind3]
    decide
  have h6 : (4/5 : ℚ) ≤ (LyricsAlignment.findBestStartPosition scenarioMid2.preprocessedLyrics
      scenarioChunk3 (LyricsAlignment.searchRangeOf scenarioMid2 4).1
      (LyricsAlignment.searchRangeOf scenarioMid2 4).2).2 := by
    rw [scenarioRange3]
    dsimp only
    rw [scenarioFind3]
    norm_num
  rw [LyricsAlignment.alignChunk_highScore scenarioMid2 scenarioChunk3 4
    (by decide) (by decide) (by decide) (by decide) h5 h6]
  rw [scenarioJump3, scenarioRange3]
  dsimp only
  rw [scenarioFind3]
  decide

/-- C6: when `alignChunk`'s best window score is at least `0.80`, the
consecutive-match count is incremented, the aligner locks once that count
reaches `2`, the emitted words are the matched lyrics words timed by a
uniform split of the chunk span at `0.95` times the mean chunk confidence,
and the cursor advances to the match position plus the (range-clipped) chunk
word count; in particular, for the three sequential chunks `the quick`,
`brown fox`, `jumps over` against `the quick brown fox jumps over the lazy
dog`, the aligner is locked with cursor `4` after chunk 2 and still locked
with cursor `6` after chunk 3. -/
theorem C6_lock_progression :
    (∀ (st : LyricsAlignment.AlignerState) (ws : List LyricsAlignment.WordSegment) (T : ℚ),
      st.initialized = true → st.preprocessedLyrics ≠ [] → ws ≠ [] →
      LyricsAlignment.isNonLyricalContent ws = false →
      0 ≤ (LyricsAlignment.findBestStartPosition st.preprocessedLyrics ws
        (LyricsAlignment.searchRangeOf st T).1 (LyricsAlignment.searchRangeOf st T).2).1 →
      (4/5 : ℚ) ≤ (LyricsAlignment.findBestStartPosition st.preprocessedLyrics ws
        (LyricsAlignment.searchRangeOf st T).1 (LyricsAlignment.searchRangeOf st T).2).2 →
      LyricsAlignment.alignChunk st ws T =
        ({ st with
            locked := if 2 ≤ (LyricsAlignment.jumpAdjusted st T).2 + 1 then true
              else (LyricsAlignment.jumpAdjusted st T).1,
            consecutiveMatches := (LyricsAlignment.jumpAdjusted st T).2 + 1,
            currentPosition := (LyricsAlignment.findBestStartPosition st.preprocessedLyrics ws
                (LyricsAlignment.searchRangeOf st T).1 (LyricsAlignment.searchRangeOf st T).2).1 +
              min (ws.length : ℤ) ((st.preprocessedLyrics.length : ℤ) -
                (LyricsAlignment.findBestStartPosition st.preprocessedLyrics ws
                  (LyricsAlignment.searchRangeOf st T).1
                  (LyricsAlignment.searchRangeOf st T).2).1) },
          LyricsAlignment.mapTimestamps st.preprocessedLyrics
            (LyricsAlignment.findBestStartPosition st.preprocessedLyrics ws
              (LyricsAlignment.searchRangeOf st T).1 (LyricsAlignment.searchRangeOf st T).2).1
            (min (ws.length : ℤ) ((st.preprocessedLyrics.length : ℤ) -
              (LyricsAlignment.findBestStartPosition st.preprocessedLyrics ws
                (LyricsAlignment.searchRangeOf st T).1
                (LyricsAlignment.searchRangeOf st T).2).1)) ws)) ∧
    (∀ (lyrics : List LyricsAlignment.LyricsWord) (ls lc : ℤ)
        (ws : List LyricsAlignment.WordSegment),
      ws ≠ [] → lc ≠ 0 → (∀ i : ℕ, i < lc.toNat → ls + (i : ℤ) < (lyrics.length : ℤ)) →
      LyricsAlignment.mapTimestamps lyrics ls lc ws = (List.range lc.toNat).map (fun (i : ℕ) =>
        ⟨(lyrics.getD (ls + (i : ℤ)).toNat default).word,
          (ws.headD default).start +
            (i : ℚ) * (((ws.getLastD default).stop - (ws.headD default).start) / (lc : ℚ)),
          (ws.headD default).start +
            (i : ℚ) * (((ws.getLastD default).stop - (ws.headD default).start) / (lc : ℚ)) +
            ((ws.getLastD default).stop - (ws.headD default).start) / (lc : ℚ),
          (ws.foldl (fun a w => a + w.confidence) 0) / (ws.length : ℚ) * (19/20)⟩)) ∧
    (scenarioState2.locked = true ∧ scenarioState2.currentPosition = 4 ∧
      scenarioState3.locked = true ∧ scenarioState3.currentPosition = 6) := by
  refine ⟨LyricsAlignment.alignChunk_highScore, LyricsAlignment.mapTimestamps_full,
    ?_, ?_, ?_, ?_⟩
  · rw [scenarioStep2]
    rfl
  · rw [scenarioStep2]
    rfl
  · rw [scenarioStep3]
    rfl
  · rw [scenarioStep3]
    rfl

set_option maxRecDepth 8192 in
/-- C6 witness: the high-score branch applied to the concrete post-chunk-1
state and chunk 2 locks the aligner and moves the cursor to `4`. -/
theorem C6_lock_witness :
    (LyricsAlignment.alignChunk scenarioMid1 scenarioChunk2 2).1.locked = true ∧
    (LyricsAlignment.alignChunk scenarioMid1 scenarioChunk2 2).1.currentPosition = 4 := by
  have h5 : 0 ≤ (LyricsAlignment.findBestStartPosition scenarioMid1.preprocessedLyrics
      scenarioChunk2 (LyricsAlignment.searchRangeOf scenarioMid1 2).1
      (LyricsAlignment.searchRangeOf scenarioMid1 2).2).1 := by
    rw [scenarioRange2]
    dsimp only
    rw [scenarioFind2]
    decide
  have h6 : (4/5 : ℚ) ≤ (LyricsAlignment.findBestStartPosition scenarioMid1.preprocessedLyrics
      scenarioChunk2 (LyricsAlignment.searchRangeOf scenarioMid1 2).1
      (LyricsAlignment.searchRangeOf scenarioMid1 2).2).2 := by
    rw [scenarioRange2]
    dsimp only
    rw [scenarioFind2]
    norm_num
  have h := C6_lock_progression.1 scenarioMid1 scenarioChunk2 2
    (by decide) (by decide) (by decide) (by decide) h5 h6
  rw [h]
  constructor
  · dsimp only
    rw [scenarioJump2]
    decide
  · dsimp only
    rw [scenarioRange2]
    dsimp only
    rw [scenarioFind2]
    decide

/-! ## C1: delay bound -/

/-- Two distinct numbers less than a modulus apart have distinct residues. -/
theorem mod_ne_of_close {N p q : ℕ} (hlt : p < q) (hle : q < p + N) : p % N ≠ q % N := by
  intro h
  have hdvd := (Nat.modEq_iff_dvd' (Nat.le_of_lt hlt)).mp h
  have hpos : 0 < q - p := by omega
  have := Nat.le_of_dvd hpos hdvd
  omega

/-- Two numbers in a window of length `N` with equal residues are equal. -/
theorem mod_inj_of_window {N a b t : ℕ} (ha1 : a < t) (ha2 : t ≤ a + N)
    (hb1 : b < t) (hb2 : t ≤ b + N) (hmod : a % N = b % N) : a = b := by
  rcases Nat.lt_trichotomy a b with h | h | h
  · exact absurd hmod (mod_ne_of_close h (by omega))
  · exact h
  · exact absurd hmod.symm (mod_ne_of_close h (by omega))

/-- The ring gap identity: `(a % N + N - b % N) % N = (a - b) % N` for
`b ≤ a`. -/
theorem modGap (N a b : ℕ) (hN : 0 < N) (hba : b ≤ a) :
    (a % N + N - b % N) % N = (a - b) % N := by
  have hbN : b % N < N := Nat.mod_lt b hN
  zify [show b % N ≤ a % N + N from by omega, hba]
  rw [show ((a : ℤ) % N + N - (b : ℤ) % N) = ((a : ℤ) % N - (b : ℤ) % N) + 1 * N from by ring,
    Int.add_mul_emod_self, ← Int.sub_emod]

namespace AudioEngine

/-- The written position of the successor state. -/
theorem stateAt_succ_writePos (cfg : EngineCfg) (sched : ℕ → List Rewrite)
    (x : ℕ → Fin 2 → ℚ) (t : ℕ) :
    (stateAt cfg sched x (t + 1)).delayWritePos =
      ((stateAt cfg sched x t).delayWritePos + 1) % cfg.delayBufferSize := rfl

/-- The read position of the successor state. -/
theorem stateAt_succ_readPos (cfg : EngineCfg) (sched : ℕ → List Rewrite)
    (x : ℕ → Fin 2 → ℚ) (t : ℕ) :
    (stateAt cfg sched x (t + 1)).delayReadPos =
      if (gateStep cfg (stateAt cfg sched x t).playbackStarted
          (stateAt cfg sched x t).wasPaused
          (((stateAt cfg sched x t).delayWritePos + cfg.delayBufferSize -
            (stateAt cfg sched x t).delayReadPos) % cfg.delayBufferSize)).1 = true
      then ((stateAt cfg sched x t).delayReadPos + 1) % cfg.delayBufferSize
      else (stateAt cfg sched x t).delayReadPos := rfl

/-- The playback flag of the successor state. -/
theorem stateAt_succ_started (cfg : EngineCfg) (sched : ℕ → List Rewrite)
    (x : ℕ → Fin 2 → ℚ) (t : ℕ) :
    (stateAt cfg sched x (t + 1)).playbackStarted =
      (gateStep cfg (stateAt cfg sched x t).playbackStarted
        (stateAt cfg sched x t).wasPaused
        (((stateAt cfg sched x t).delayWritePos + cfg.delayBufferSize -
          (stateAt cfg sched x t).delayReadPos) % cfg.delayBufferSize)).2.1 := rfl

/-- The pause flag of the successor state. -/
theorem stateAt_succ_paused (cfg : EngineCfg) (sched : ℕ → List Rewrite)
    (x : ℕ → Fin 2 → ℚ) (t : ℕ) :
    (stateAt cfg sched x (t + 1)).wasPaused =
      (gateStep cfg (stateAt cfg sched x t).playbackStarted
        (stateAt cfg sched x t).wasPaused
        (((stateAt cfg sched x t).delayWritePos + cfg.delayBufferSize -
          (stateAt cfg sched x t).delayReadPos) % cfg.delayBufferSize)).2.2 := rfl

/-- The delay buffer of the successor state: the input frame written over the
rewrite-patched buffer. -/
theorem stateAt_succ_buffer (cfg : EngineCfg) (sched : ℕ → List Rewrite)
    (x : ℕ → Fin 2 → ℚ) (t : ℕ) :
    (stateAt cfg sched x (t + 1)).delayBuffer = fun ch idx =>
      if idx = (stateAt cfg sched x t).delayWritePos then x t ch
      else applyRewrites cfg.delayBufferSize (stateAt cfg sched x t).delayBuffer
        (sched t) ch idx := rfl

/-- The emitted frame, spelled through the gate and the written buffer. -/
theorem outputAt_eq (cfg : EngineCfg) (sched : ℕ → List Rewrite)
    (x : ℕ → Fin 2 → ℚ) (t : ℕ) (ch : Fin 2) :
    outputAt cfg sched x t ch =
      if (gateStep cfg (stateAt cfg sched x t).playbackStarted
          (stateAt cfg sched x t).wasPaused
          (((stateAt cfg sched x t).delayWritePos + cfg.delayBufferSize -
            (stateAt cfg sched x t).delayReadPos) % cfg.delayBufferSize)).1 = true
      then (if (stateAt cfg sched x t).delayReadPos = (stateAt cfg sched x t).delayWritePos
        then x t (min ch 1)
        else applyRewrites cfg.delayBufferSize (stateAt cfg sched x t).delayBuffer
          (sched t) (min ch 1) (stateAt cfg sched x t).delayReadPos)
      else 0 := rfl

/-- The gate before playback has started. -/
theorem gateStep_notStarted (cfg : EngineCfg) (wp : Bool) (g : ℕ) :
    gateStep cfg false wp g =
      (decide (cfg.initialDelaySeconds ≤ (g : ℚ) / (cfg.sampleRate : ℚ)),
        decide (cfg.initialDelaySeconds ≤ (g : ℚ) / (cfg.sampleRate : ℚ)), wp) := rfl

/-- The gate in the steady playing state: with no pending pause and the gap
not critically low, the engine keeps playing. -/
theorem gateStep_steady (cfg : EngineCfg) (g : ℕ)
    (h : ¬((g : ℚ) / (cfg.sampleRate : ℚ) < cfg.initialDelaySeconds - 2)) :
    gateStep cfg true false g = (true, true, false) := by
  unfold gateStep
  rw [if_neg (by decide : ¬(true = false))]
  have h1 : ¬((g : ℚ) / (cfg.sampleRate : ℚ) < cfg.initialDelaySeconds - 2 ∧
      (false : Bool) = false) := fun hc => h hc.1
  have h2 : ¬(cfg.initialDelaySeconds ≤ (g : ℚ) / (cfg.sampleRate : ℚ) ∧
      (false : Bool) = true) := fun hc => Bool.false_ne_true hc.2
  rw [if_neg h1, if_neg h2]
  rfl

end AudioEngine

namespace AudioEngine

/-- Cells hit by no write of the reverse loop are unchanged. -/
theorem reverseChannel_zero_notCovered (N : ℕ) (buf : ℕ → ℚ) (cs n idx : ℕ)
    (h : ∀ i, i < n → (cs + i) % N ≠ idx) :
    reverseChannel N buf cs 0 n idx = buf idx := by
  unfold reverseChannel
  simp only [Nat.sub_zero, Nat.zero_add]
  exact foldl_update_of_ne (fun i hi => h i (List.mem_range.mp hi))

/-- When the written cells of the reverse loop are pairwise distinct, offset
`i` reads back the faded mirrored sample. -/
theorem reverseChannel_zero_covered (N : ℕ) (buf : ℕ → ℚ) (cs n i : ℕ)
    (hi : i < n)
    (hinj : ∀ j, j < n → (cs + j) % N = (cs + i) % N → j = i) :
    reverseChannel N buf cs 0 n ((cs + i) % N) =
      reverseGain n (min 480 (n / 4)) i * buf ((cs + (n - 1 - i)) % N) := by
  unfold reverseChannel
  simp only [Nat.sub_zero, Nat.zero_add]
  refine foldl_update_of_eq (fun j hj hfj => ?_) ⟨i, List.mem_range.mpr hi, rfl⟩
  rw [hinj j (List.mem_range.mp hj) hfj]

/-- A rewrite leaves every cell alone whose residue no covered frame maps
to. -/
theorem applyRewrite_other (N : ℕ) (buf : Fin 2 → ℕ → ℚ) (r : Rewrite) (ch : Fin 2) (idx : ℕ)
    (h : ∀ j, covers r j → j % N ≠ idx) :
    applyRewrite N buf r ch idx = buf ch idx := by
  unfold applyRewrite applyCensorship
  cases hm : r.mode
  · simp only []
    apply muteChannel_notCovered
    intro i _ hi
    exact h (r.startPos + i) ⟨Nat.le_add_right _ _, by omega⟩
  · simp only []
    apply reverseChannel_zero_notCovered
    intro i hi
    exact h (r.startPos + i) ⟨Nat.le_add_right _ _, by omega⟩

/-- A rewrite writes the rewrite operator's value at every covered frame's
cell, reading mirrors from the pre-rewrite buffer. -/
theorem applyRewrite_covered (N : ℕ) (buf : Fin 2 → ℕ → ℚ) (r : Rewrite) (ch : Fin 2) (p : ℕ)
    (hcov : covers r p)
    (hinj : ∀ j j', covers r j → covers r j' → j % N = j' % N → j = j') :
    applyRewrite N buf r ch (p % N) =
      rewriteValue r (fun q ch2 => buf ch2 (q % N)) p ch := by
  obtain ⟨h1, h2⟩ := hcov
  unfold applyRewrite applyCensorship rewriteValue
  cases hm : r.mode
  · simp only []
    have hmc := muteChannel_covered N (buf ch) r.startPos 0 (r.endPos - r.startPos)
      (p - r.startPos) (Nat.zero_le _) (by omega)
    rwa [show r.startPos + (p - r.startPos) = p from by omega] at hmc
  · simp only []
    show reverseChannel N (buf ch) r.startPos 0 (r.endPos - r.startPos) (p % N) = _
    have hrc := reverseChannel_zero_covered N (buf ch) r.startPos (r.endPos - r.startPos)
      (p - r.startPos) (by omega) ?_
    · rw [show r.startPos + (p - r.startPos) = p from by omega] at hrc
      rw [hrc]
      rw [show r.startPos + (r.endPos - r.startPos - 1 - (p - r.startPos)) =
        r.endPos - 1 - (p - r.startPos) from by omega]
    · intro j hj hmod
      have hcj : covers r (r.startPos + j) := ⟨Nat.le_add_right _ _, by omega⟩
      have hcp : covers r (r.startPos + (p - r.startPos)) := ⟨Nat.le_add_right _ _, by omega⟩
      have := hinj _ _ hcj hcp hmod
      omega

/-- A rewrite list leaves every cell alone whose residue no covered frame of
any listed rewrite maps to. -/
theorem applyRewrites_other (N : ℕ) (rs : List Rewrite) :
    ∀ (buf : Fin 2 → ℕ → ℚ) (ch : Fin 2) (idx : ℕ),
      (∀ r ∈ rs, ∀ j, covers r j → j % N ≠ idx) →
      applyRewrites N buf rs ch idx = buf ch idx := by
  induction rs with
  | nil => intro buf ch idx _; rfl
  | cons s tail ih =>
    intro buf ch idx h
    have hstep : applyRewrites N buf (s :: tail) = applyRewrites N (applyRewrite N buf s) tail :=
      rfl
    rw [hstep, ih (applyRewrite N buf s) ch idx
      (fun r hr => h r (List.mem_cons_of_mem s hr))]
    exact applyRewrite_other N buf s ch idx (h s (List.mem_cons_self s tail))

/-- Applying a disjoint rewrite list to a cell covered by the member `r`
yields `r`'s rewrite value, with mirrors read from the original buffer. -/
theorem applyRewrites_covered (N : ℕ) (rs : List Rewrite) :
    ∀ (buf : Fin 2 → ℕ → ℚ) (r : Rewrite) (p : ℕ) (ch : Fin 2),
      r ∈ rs → covers r p → rs.Pairwise ivDisj →
      (∀ j j', (∃ s ∈ rs, covers s j) → (∃ s ∈ rs, covers s j') → j % N = j' % N → j = j') →
      applyRewrites N buf rs ch (p % N) =
        rewriteValue r (fun q ch2 => buf ch2 (q % N)) p ch := by
  induction rs with
  | nil => intro buf r p ch hmem; exact absurd hmem (List.not_mem_nil r)
  | cons s tail ih =>
    intro buf r p ch hmem hcov hdisj hinj
    have hstep : applyRewrites N buf (s :: tail) = applyRewrites N (applyRewrite N buf s) tail :=
      rfl
    rw [hstep]
    rcases List.mem_cons.mp hmem with rfl | hmem2
    · rw [applyRewrites_other N tail (applyRewrite N buf r) ch (p % N) ?_]
      · exact applyRewrite_covered N buf r ch p hcov
          (fun j j' hj hj' => hinj j j' ⟨r, List.mem_cons_self r tail, hj⟩
            ⟨r, List.mem_cons_self r tail, hj'⟩)
      · intro s2 hs2 j hjcov hmod
        have hjp : j = p := hinj j p ⟨s2, List.mem_cons_of_mem r hs2, hjcov⟩
          ⟨r, List.mem_cons_self r tail, hcov⟩ hmod
        subst hjp
        have hd := (List.pairwise_cons.mp hdisj).1 s2 hs2
        unfold ivDisj at hd
        unfold covers at hcov hjcov
        omega
    · rw [ih (applyRewrite N buf s) r p ch hmem2 hcov (List.pairwise_cons.mp hdisj).2
        (fun j j' a b c => hinj j j'
          (a.elim (fun s2 hs2 => ⟨s2, List.mem_cons_of_mem s hs2.1, hs2.2⟩))
          (b.elim (fun s2 hs2 => ⟨s2, List.mem_cons_of_mem s hs2.1, hs2.2⟩)) c)]
      unfold rewriteValue
      cases hm : r.mode
      · rfl
      · have hmir : covers r (r.endPos - 1 - (p - r.startPos)) := by
          unfold covers at hcov ⊢
          omega
        have hclean : applyRewrite N buf s ch ((r.endPos - 1 - (p - r.startPos)) % N) =
            buf ch ((r.endPos - 1 - (p - r.startPos)) % N) := by
          apply applyRewrite_other
          intro j hjcov hmod
          have hje := hinj j (r.endPos - 1 - (p - r.startPos))
            ⟨s, List.mem_cons_self s tail, hjcov⟩
            ⟨r, List.mem_cons_of_mem s hmem2, hmir⟩ hmod
          subst hje
          have hd := (List.pairwise_cons.mp hdisj).1 r hmem2
          unfold ivDisj at hd
          unfold covers at hjcov hmir
          omega
        dsimp only
        rw [hclean]

end AudioEngine

namespace AudioEngine

/-- Conversion of the gate's seconds comparison to a sample comparison. -/
theorem gate_decide (cfg : EngineCfg) (D : ℕ) (hSR : 0 < cfg.sampleRate)
    (hDdef : (D : ℚ) = cfg.initialDelaySeconds * (cfg.sampleRate : ℚ)) (g : ℕ) :
    decide (cfg.initialDelaySeconds ≤ (g : ℚ) / (cfg.sampleRate : ℚ)) = decide (D ≤ g) := by
  have hSRQ : (0 : ℚ) < (cfg.sampleRate : ℚ) := by exact_mod_cast hSR
  have hdelay : cfg.initialDelaySeconds = (D : ℚ) / (cfg.sampleRate : ℚ) := by
    rw [hDdef]
    field_simp
  apply decide_eq_decide.mpr
  rw [hdelay, div_le_div_iff_of_pos_right hSRQ]
  exact_mod_cast Iff.rfl

/-- The position and gating invariant of the delay loop: the write cursor
tracks `t`, the read cursor trails it by `D` once playback has started (and
sits at `0` before), playback starts right after frame `D`, and the engine
never pauses. -/
theorem stateAt_pos (cfg : EngineCfg) (sched : ℕ → List Rewrite) (x : ℕ → Fin 2 → ℚ) (D : ℕ)
    (hSR : 0 < cfg.sampleRate)
    (hDdef : (D : ℚ) = cfg.initialDelaySeconds * (cfg.sampleRate : ℚ))
    (hD0 : 0 < D) (hDN : D < cfg.delayBufferSize) :
    ∀ t, (stateAt cfg sched x t).delayWritePos = t % cfg.delayBufferSize ∧
      (stateAt cfg sched x t).delayReadPos = (t - D) % cfg.delayBufferSize ∧
      (stateAt cfg sched x t).playbackStarted = decide (D < t) ∧
      (stateAt cfg sched x t).wasPaused = false := by
  have hN : 0 < cfg.delayBufferSize := by omega
  have hdelay : cfg.initialDelaySeconds = (D : ℚ) / (cfg.sampleRate : ℚ) := by
    rw [hDdef]
    have hSRQ : (0 : ℚ) < (cfg.sampleRate : ℚ) := by exact_mod_cast hSR
    field_simp
  intro t
  induction t with
  | zero =>
    refine ⟨rfl, ?_, ?_, rfl⟩
    · show (0 : ℕ) = (0 - D) % cfg.delayBufferSize
      rw [Nat.zero_sub, Nat.zero_mod]
    · show (false : Bool) = decide (D < 0)
      simp
  | succ t ih =>
    obtain ⟨ihw, ihr, ihs, ihp⟩ := ih
    have hgap : ((stateAt cfg sched x t).delayWritePos + cfg.delayBufferSize -
        (stateAt cfg sched x t).delayReadPos) % cfg.delayBufferSize = min t D := by
      rw [ihw, ihr]
      rcases le_or_lt t D with h | h
      · have h0 : t - D = 0 := by omega
        rw [h0, Nat.zero_mod, Nat.sub_zero,
          Nat.mod_eq_of_lt (by omega : t < cfg.delayBufferSize), Nat.add_mod_right,
          Nat.mod_eq_of_lt (by omega : t < cfg.delayBufferSize)]
        omega
      · rw [modGap cfg.delayBufferSize t (t - D) hN (by omega),
          show t - (t - D) = D from by omega, Nat.mod_eq_of_lt hDN]
        omega
    rcases le_or_lt t D with htD | hDt
    · -- still filling (or the very frame that starts playback)
      have hs0 : (stateAt cfg sched x t).playbackStarted = false := by
        rw [ihs]
        simp only [decide_eq_false_iff_not]
        omega
      have hcps : gateStep cfg (stateAt cfg sched x t).playbackStarted
          (stateAt cfg sched x t).wasPaused
          (((stateAt cfg sched x t).delayWritePos + cfg.delayBufferSize -
            (stateAt cfg sched x t).delayReadPos) % cfg.delayBufferSize) =
          (decide (D ≤ t), decide (D ≤ t), false) := by
        rw [hs0, ihp, hgap, gateStep_notStarted,
          gate_decide cfg D hSR hDdef (min t D),
          show min t D = t from by omega]
      refine ⟨?_, ?_, ?_, ?_⟩
      · rw [stateAt_succ_writePos, ihw, Nat.mod_add_mod]
      · rw [stateAt_succ_readPos, hcps, ihr]
        rcases Nat.lt_or_ge t D with hlt | hge
        · rw [if_neg (by simp only [decide_eq_true_eq]; omega)]
          rw [show t - D = 0 from by omega, show t + 1 - D = 0 from by omega]
        · rw [if_pos (by simp only [decide_eq_true_eq]; omega)]
          rw [show t - D = 0 from by omega, Nat.zero_mod, Nat.zero_add,
            show t + 1 - D = 1 from by omega]
      · rw [stateAt_succ_started, hcps]
        show decide (D ≤ t) = decide (D < t + 1)
        apply decide_eq_decide.mpr
        omega
      · rw [stateAt_succ_paused, hcps]
    · -- steady playing state
      have hs1 : (stateAt cfg sched x t).playbackStarted = true := by
        rw [ihs]
        simp only [decide_eq_true_eq]
        omega
      have hnp : ¬(((min t D : ℕ) : ℚ) / (cfg.sampleRate : ℚ) <
          cfg.initialDelaySeconds - 2) := by
        rw [show min t D = D from by omega, hdelay]
        intro hc
        linarith
      have hcps : gateStep cfg (stateAt cfg sched x t).playbackStarted
          (stateAt cfg sched x t).wasPaused
          (((stateAt cfg sched x t).delayWritePos + cfg.delayBufferSize -
            (stateAt cfg sched x t).delayReadPos) % cfg.delayBufferSize) =
          (true, true, false) := by
        rw [hs1, ihp, hgap]
        exact gateStep_steady cfg (min t D) hnp
      refine ⟨?_, ?_, ?_, ?_⟩
      · rw [stateAt_succ_writePos, ihw, Nat.mod_add_mod]
      · rw [stateAt_succ_readPos, hcps, if_pos rfl, ihr, Nat.mod_add_mod,
          show t - D + 1 = t + 1 - D from by omega]
      · rw [stateAt_succ_started, hcps]
        exact (decide_eq_true (by omega : D < t + 1)).symm
      · rw [stateAt_succ_paused, hcps]

end AudioEngine

namespace AudioEngine

/-- Reading a live cell of the rewrite-patched buffer: under the hand-over
window and disjointness discipline, the cell of frame `p` holds the original
sample unless some rewrite covered `p`, in which case it holds the rewrite
operator's value over the original samples. -/
theorem rewrittenCell (cfg : EngineCfg) (sched : ℕ → List Rewrite) (x : ℕ → Fin 2 → ℚ)
    (D : ℕ) (hDN : D < cfg.delayBufferSize)
    (hwin : ∀ u r, r ∈ sched u → r.endPos ≤ u ∧ u ≤ r.startPos + D)
    (hdis1 : ∀ u, (sched u).Pairwise ivDisj)
    (hdis2 : ∀ u v, u ≠ v → ∀ r ∈ sched u, ∀ s ∈ sched v, ivDisj r s)
    (t : ℕ)
    (hInv : ∀ p ch, p < t → t ≤ p + cfg.delayBufferSize →
      ((∀ u, u < t → ∀ r ∈ sched u, ¬ covers r p) →
        (stateAt cfg sched x t).delayBuffer ch (p % cfg.delayBufferSize) = x p ch) ∧
      (∀ u, u < t → ∀ r ∈ sched u, covers r p →
        (stateAt cfg sched x t).delayBuffer ch (p % cfg.delayBufferSize) =
          rewriteValue r x p ch))
    (p : ℕ) (ch : Fin 2) (hp : p < t) (hw : t ≤ p + cfg.delayBufferSize) :
    ((∀ u, u ≤ t → ∀ r ∈ sched u, ¬ covers r p) →
      applyRewrites cfg.delayBufferSize (stateAt cfg sched x t).delayBuffer (sched t) ch
        (p % cfg.delayBufferSize) = x p ch) ∧
    (∀ u, u ≤ t → ∀ r ∈ sched u, covers r p →
      applyRewrites cfg.delayBufferSize (stateAt cfg sched x t).delayBuffer (sched t) ch
        (p % cfg.delayBufferSize) = rewriteValue r x p ch) := by
  have hframe : ∀ s ∈ sched t, ∀ j, covers s j → j < t ∧ t ≤ j + cfg.delayBufferSize := by
    intro s hs j hcov
    have hws := hwin t s hs
    unfold covers at hcov
    omega
  constructor
  · intro hno
    rw [applyRewrites_other cfg.delayBufferSize (sched t)
      (stateAt cfg sched x t).delayBuffer ch (p % cfg.delayBufferSize) ?_]
    · exact (hInv p ch hp hw).1 (fun u hu r hr => hno u (Nat.le_of_lt hu) r hr)
    · intro r hr j hcov hmod
      obtain ⟨hj1, hj2⟩ := hframe r hr j hcov
      have : j = p := mod_inj_of_window hj1 hj2 hp hw hmod
      subst this
      exact hno t (le_refl t) r hr hcov
  · intro u hu r hr hcov
    rcases Nat.eq_or_lt_of_le hu with rfl | hut
    · rw [applyRewrites_covered cfg.delayBufferSize (sched u)
        (stateAt cfg sched x u).delayBuffer r p ch hr hcov (hdis1 u) ?_]
      · unfold rewriteValue
        cases hm : r.mode
        · rfl
        · dsimp only
          have hmir : covers r (r.endPos - 1 - (p - r.startPos)) := by
            unfold covers at hcov ⊢
            omega
          obtain ⟨hm1, hm2⟩ := hframe r hr _ hmir
          rw [(hInv (r.endPos - 1 - (p - r.startPos)) ch hm1 hm2).1 ?_]
          intro u2 hu2 r2 hr2 hcov2
          have hd := hdis2 u2 u (Nat.ne_of_lt hu2) r2 hr2 r hr
          unfold ivDisj at hd
          unfold covers at hcov2 hmir
          omega
      · intro j j' hj hj' hmod
        obtain ⟨s1, hs1, hc1⟩ := hj
        obtain ⟨s2, hs2, hc2⟩ := hj'
        obtain ⟨ha1, ha2⟩ := hframe s1 hs1 j hc1
        obtain ⟨hb1, hb2⟩ := hframe s2 hs2 j' hc2
        exact mod_inj_of_window ha1 ha2 hb1 hb2 hmod
    · rw [applyRewrites_other cfg.delayBufferSize (sched t)
        (stateAt cfg sched x t).delayBuffer ch (p % cfg.delayBufferSize) ?_]
      · exact (hInv p ch hp hw).2 u hut r hr hcov
      · intro s hs j hcov2 hmod
        obtain ⟨hj1, hj2⟩ := hframe s hs j hcov2
        have : j = p := mod_inj_of_window hj1 hj2 hp hw hmod
        subst this
        have hd := hdis2 u t (Nat.ne_of_lt hut) r hr s hs
        unfold ivDisj at hd
        unfold covers at hcov hcov2
        omega

/-- The delay-buffer faithfulness invariant: each live cell holds the input
sample written there, unless an applied rewrite covered that frame. -/
theorem bufferFaithful (cfg : EngineCfg) (sched : ℕ → List Rewrite) (x : ℕ → Fin 2 → ℚ)
    (D : ℕ) (hSR : 0 < cfg.sampleRate)
    (hDdef : (D : ℚ) = cfg.initialDelaySeconds * (cfg.sampleRate : ℚ))
    (hD0 : 0 < D) (hDN : D < cfg.delayBufferSize)
    (hwin : ∀ u r, r ∈ sched u → r.endPos ≤ u ∧ u ≤ r.startPos + D)
    (hdis1 : ∀ u, (sched u).Pairwise ivDisj)
    (hdis2 : ∀ u v, u ≠ v → ∀ r ∈ sched u, ∀ s ∈ sched v, ivDisj r s) :
    ∀ t p ch, p < t → t ≤ p + cfg.delayBufferSize →
      ((∀ u, u < t → ∀ r ∈ sched u, ¬ covers r p) →
        (stateAt cfg sched x t).delayBuffer ch (p % cfg.delayBufferSize) = x p ch) ∧
      (∀ u, u < t → ∀ r ∈ sched u, covers r p →
        (stateAt cfg sched x t).delayBuffer ch (p % cfg.delayBufferSize) =
          rewriteValue r x p ch) := by
  intro t
  induction t with
  | zero => intro p ch hp _; exact absurd hp (Nat.not_lt_zero p)
  | succ t ih =>
    intro p ch hp hw
    have hwp : (stateAt cfg sched x t).delayWritePos = t % cfg.delayBufferSize :=
      (stateAt_pos cfg sched x D hSR hDdef hD0 hDN t).1
    rcases Nat.lt_succ_iff_lt_or_eq.mp hp with hp2 | rfl
    · have hne : p % cfg.delayBufferSize ≠ t % cfg.delayBufferSize :=
        mod_ne_of_close hp2 (by omega)
      have hcell := rewrittenCell cfg sched x D hDN hwin hdis1 hdis2 t ih p ch hp2 (by omega)
      constructor
      · intro hno
        rw [stateAt_succ_buffer]
        dsimp only
        rw [hwp, if_neg hne]
        exact hcell.1 (fun u hu r hr => hno u (Nat.lt_succ_of_le hu) r hr)
      · intro u hu r hr hcov
        rw [stateAt_succ_buffer]
        dsimp only
        rw [hwp, if_neg hne]
        exact hcell.2 u (Nat.lt_succ_iff.mp hu) r hr hcov
    · constructor
      · intro _
        rw [stateAt_succ_buffer]
        dsimp only
        rw [hwp, if_pos rfl]
      · intro u hu r hr hcov
        exfalso
        have hws := hwin u r hr
        unfold covers at hcov
        omega

end AudioEngine

/-- C1: delay bound.  Once the initial delay of `D = initial_delay_seconds *
sample_rate` frames has been buffered, the engine is playing (never paused),
and each output frame equals the input frame written `D` frames earlier —
unless an applied rewrite covered that frame, in which case the output is the
rewrite operator (mute, or faded reversal of the original interval) applied
at that frame.  The hypotheses state the hand-over discipline of the worker:
a rewrite handed over before frame `u` covers only frames already written
(`endPos ≤ u`) and not yet played (`u ≤ startPos + D`), and all rewrite
intervals are pairwise disjoint. -/
theorem C1_delay_bound (cfg : AudioEngine.EngineCfg) (sched : ℕ → List AudioEngine.Rewrite)
    (x : ℕ → Fin 2 → ℚ) (D : ℕ) (hSR : 0 < cfg.sampleRate)
    (hDdef : (D : ℚ) = cfg.initialDelaySeconds * (cfg.sampleRate : ℚ))
    (hD0 : 0 < D) (hDN : D < cfg.delayBufferSize)
    (hwin : ∀ u r, r ∈ sched u → r.endPos ≤ u ∧ u ≤ r.startPos + D)
    (hdis1 : ∀ u, (sched u).Pairwise AudioEngine.ivDisj)
    (hdis2 : ∀ u v, u ≠ v → ∀ r ∈ sched u, ∀ s ∈ sched v, AudioEngine.ivDisj r s)
    (t : ℕ) (ht : D ≤ t) (ch : Fin 2) :
    (AudioEngine.stateAt cfg sched x t).wasPaused = false ∧
    (D < t → (AudioEngine.stateAt cfg sched x t).playbackStarted = true) ∧
    ((∀ u, u ≤ t → ∀ r ∈ sched u, ¬ AudioEngine.covers r (t - D)) →
      AudioEngine.outputAt cfg sched x t ch = x (t - D) ch) ∧
    (∀ u, u ≤ t → ∀ r ∈ sched u, AudioEngine.covers r (t - D) →
      AudioEngine.outputAt cfg sched x t ch = AudioEngine.rewriteValue r x (t - D) ch) := by
  obtain ⟨hwp, hrp, hst, hpa⟩ := AudioEngine.stateAt_pos cfg sched x D hSR hDdef hD0 hDN t
  have hN : 0 < cfg.delayBufferSize := by omega
  have hSRQ : (0 : ℚ) < (cfg.sampleRate : ℚ) := by exact_mod_cast hSR
  have hdelay : cfg.initialDelaySeconds = (D : ℚ) / (cfg.sampleRate : ℚ) := by
    rw [hDdef]
    field_simp
  have hgap : ((AudioEngine.stateAt cfg sched x t).delayWritePos + cfg.delayBufferSize -
      (AudioEngine.stateAt cfg sched x t).delayReadPos) % cfg.delayBufferSize = min t D := by
    rw [hwp, hrp, modGap cfg.delayBufferSize t (t - D) hN (by omega),
      show t - (t - D) = D from by omega, Nat.mod_eq_of_lt hDN]
    omega
  have hplay : (AudioEngine.gateStep cfg (AudioEngine.stateAt cfg sched x t).playbackStarted
      (AudioEngine.stateAt cfg sched x t).wasPaused
      (((AudioEngine.stateAt cfg sched x t).delayWritePos + cfg.delayBufferSize -
        (AudioEngine.stateAt cfg sched x t).delayReadPos) % cfg.delayBufferSize)).1 = true := by
    rw [hpa, hgap, hst]
    rcases Nat.eq_or_lt_of_le ht with rfl | hDt
    · rw [show decide (D < D) = false from by simp, AudioEngine.gateStep_notStarted]
      dsimp only
      rw [AudioEngine.gate_decide cfg D hSR hDdef]
      simp
    · rw [show decide (D < t) = true from decide_eq_true hDt,
        AudioEngine.gateStep_steady cfg (min t D) ?_]
      · rw [show min t D = D from by omega, hdelay]
        intro hc
        linarith
  have hne : (t - D) % cfg.delayBufferSize ≠ t % cfg.delayBufferSize :=
    mod_ne_of_close (by omega) (by omega)
  have hmin : min ch 1 = ch := by fin_cases ch <;> rfl
  have hout : AudioEngine.outputAt cfg sched x t ch =
      AudioEngine.applyRewrites cfg.delayBufferSize
        (AudioEngine.stateAt cfg sched x t).delayBuffer (sched t) ch
        ((t - D) % cfg.delayBufferSize) := by
    rw [AudioEngine.outputAt_eq, hplay, if_pos rfl, hrp, hwp, if_neg hne, hmin]
  have hcell := AudioEngine.rewrittenCell cfg sched x D hDN hwin hdis1 hdis2 t
    (AudioEngine.bufferFaithful cfg sched x D hSR hDdef hD0 hDN hwin hdis1 hdis2 t)
    (t - D) ch (by omega) (by omega)
  refine ⟨hpa, fun hDt => ?_, fun hno => ?_, fun u hu r hr hcov => ?_⟩
  · rw [hst]
    exact decide_eq_true hDt
  · rw [hout]
    exact hcell.1 hno
  · rw [hout]
    exact hcell.2 u hu r hr hcov

/-- C1 witness: with a ring of 8 cells, 1 sample per second and a 3-second
delay, frame 3 plays back input frame 0 unchanged, and frame 4 — whose
delayed frame 1 is covered by the mute handed over before frame 4 — plays
silence. -/
theorem C1_delay_witness :
    AudioEngine.outputAt witnessCfg witnessSched witnessInput 3 0 = witnessInput 0 0 ∧
    AudioEngine.outputAt witnessCfg witnessSched witnessInput 4 0 = 0 := by
  have hwin : ∀ u r, r ∈ witnessSched u → r.endPos ≤ u ∧ u ≤ r.startPos + 3 := by
    intro u r hr
    unfold witnessSched at hr
    by_cases hu : u = 4
    · subst hu
      rw [if_pos rfl] at hr
      rw [List.mem_singleton.mp hr]
      exact ⟨by norm_num, by norm_num⟩
    · rw [if_neg hu] at hr
      exact absurd hr (List.not_mem_nil r)
  have hdis1 : ∀ u, (witnessSched u).Pairwise AudioEngine.ivDisj := by
    intro u
    unfold witnessSched
    split
    · exact List.pairwise_singleton _ _
    · exact List.Pairwise.nil
  have hdis2 : ∀ u v, u ≠ v → ∀ r ∈ witnessSched u, ∀ s ∈ witnessSched v,
      AudioEngine.ivDisj r s := by
    intro u v huv r hr s hs
    unfold witnessSched at hr hs
    by_cases hu : u = 4
    · by_cases hv : v = 4
      · exact absurd (hu.trans hv.symm) huv
      · rw [if_neg hv] at hs
        exact absurd hs (List.not_mem_nil s)
    · rw [if_neg hu] at hr
      exact absurd hr (List.not_mem_nil r)
  constructor
  · have h := C1_delay_bound witnessCfg witnessSched witnessInput 3 (by decide)
      (by norm_num [witnessCfg]) (by decide) (by decide) hwin hdis1 hdis2 3 (by decide) 0
    exact h.2.2.1 (fun u hu r hr => by
      unfold witnessSched at hr
      rw [if_neg (by omega)] at hr
      exact absurd hr (List.not_mem_nil r))
  · have h := C1_delay_bound witnessCfg witnessSched witnessInput 3 (by decide)
      (by norm_num [witnessCfg]) (by decide) (by decide) hwin hdis1 hdis2 4 (by decide) 0
    have hr : (⟨AudioEngine.CMode.mute, 1, 2⟩ : AudioEngine.Rewrite) ∈ witnessSched 4 := by
      unfold witnessSched
      rw [if_pos rfl]
      exact List.mem_singleton.mpr rfl
    have hval := h.2.2.2 4 (le_refl 4) _ hr (by decide)
    rw [hval]
    rfl

set_option maxRecDepth 8192 in
/-- The clipped chunk scores below `1` at every position before `6`. -/
theorem counterScoreLt : ∀ q ∈ ([0, 1, 2, 3, 4, 5] : List ℤ),
    LyricsAlignment.windowScoreOf scenarioLyrics.preprocessedLyrics counterChunk q < 1 := by
  intro q hq
  fin_cases hq
  all_goals unfold LyricsAlignment.windowScoreOf
  all_goals exact LyricsAlignment.calculateSimilarity_lt_one _ _ (by decide) (by decide) (by decide) (by decide)


set_option maxRecDepth 8192 in
/-- The clipped chunk scores `1` at position `6` (window `the lazy dog`). -/
theorem counterScoreEq :
    LyricsAlignment.windowScoreOf scenarioLyrics.preprocessedLyrics counterChunk 6 = 1 := by
  unfold LyricsAlignment.windowScoreOf
  exact LyricsAlignment.calculateSimilarity_eq_one _ _ (by decide)

set_option maxRecDepth 8192 in
/-- The clipped chunk matches first at position `6` with score `1`. -/
theorem counterFind :
    LyricsAlignment.findBestStartPosition scenarioLyrics.preprocessedLyrics
      counterChunk 0 9 = (6, 1) := by
  simp only [LyricsAlignment.findBestStartPosition]
  have hir : LyricsAlignment.intRange 0
      (min 9 (scenarioLyrics.preprocessedLyrics.length : ℤ)) =
      [0, 1, 2, 3, 4, 5] ++ (6 : ℤ) :: [7, 8] := by decide
  rw [hir]
  exact LyricsAlignment.foldl_best_first_one
    (LyricsAlignment.windowScoreOf scenarioLyrics.preprocessedLyrics counterChunk)
    (LyricsAlignment.windowScoreOf_le_one _ _) [0, 1, 2, 3, 4, 5] 6 [7, 8] (-1, 0)
    counterScoreLt (by norm_num) counterScoreEq

set_option maxRecDepth 8192 in
/-- C6 counterexample: a high-scoring match whose window is clipped at the
end of the lyrics advances the cursor to `match_start + min(|W|, total -
match_start) = 9`, not to `match_start + |W| = 10` as the claim states. -/
theorem C6_cursor_counterexample :
    (4/5 : ℚ) ≤ (LyricsAlignment.findBestStartPosition scenarioLyrics.preprocessedLyrics
      counterChunk (LyricsAlignment.searchRangeOf scenarioLyrics 0).1
      (LyricsAlignment.searchRangeOf scenarioLyrics 0).2).2 ∧
    (LyricsAlignment.alignChunk scenarioLyrics counterChunk 0).1.currentPosition = 9 ∧
    (LyricsAlignment.findBestStartPosition scenarioLyrics.preprocessedLyrics
        counterChunk (LyricsAlignment.searchRangeOf scenarioLyrics 0).1
        (LyricsAlignment.searchRangeOf scenarioLyrics 0).2).1 +
      (counterChunk.length : ℤ) = 10 ∧
    (9 : ℤ) ≠ 10 := by
  have h5 : 0 ≤ (LyricsAlignment.findBestStartPosition scenarioLyrics.preprocessedLyrics
      counterChunk (LyricsAlignment.searchRangeOf scenarioLyrics 0).1
      (LyricsAlignment.searchRangeOf scenarioLyrics 0).2).1 := by
    rw [scenarioRange1]
    dsimp only
    rw [counterFind]
    decide
  have h6 : (4/5 : ℚ) ≤ (LyricsAlignment.findBestStartPosition scenarioLyrics.preprocessedLyrics
      counterChunk (LyricsAlignment.searchRangeOf scenarioLyrics 0).1
      (LyricsAlignment.searchRangeOf scenarioLyrics 0).2).2 := by
    rw [scenarioRange1]
    dsimp only
    rw [counterFind]
    norm_num
  refine ⟨h6, ?_, ?_, by decide⟩
  · rw [LyricsAlignment.alignChunk_highScore scenarioLyrics counterChunk 0
      (by decide) (by decide) (by decide) (by decide) h5 h6]
    dsimp only
    rw [scenarioRange1]
    dsimp only
    rw [counterFind]
    decide
  · rw [scenarioRange1]
    dsimp only
    rw [counterFind]
    decide
